import Mathlib

/-!
Verification of the plot-canvas bookkeeping logic of
`gazebo/gui/plot/PlotCanvas.cc`.

The canvas state (`Canvas`) is a shallow embedding of `PlotCanvasPrivate`
together with the external collaborators the canvas drives: the plot
handles (`IncrementalPlot`), the variable pill container
(`VariablePillContainer`), the curve registry (`PlotManager`) and the
plot layout.  `std::map` values are embedded as association lists sorted
by key, so that iteration order (begin-to-end) matches the C++ map.
Each operation of `PlotCanvas` is translated into a pure state
transformer on `Canvas`.
-/

namespace PlotProof

/-! ### Association lists sorted by key (embedding of `std::map`) -/

/-- `std::map::find`: first binding of key `k`, if any. -/
def lookupA {α : Type} : List (Nat × α) → Nat → Option α
  | [], _ => none
  | (k, v) :: t, x => if k = x then some v else lookupA t x

/-- `std::map::erase(find(k))`: drop the first binding of key `k`. -/
def eraseA {α : Type} : List (Nat × α) → Nat → List (Nat × α)
  | [], _ => []
  | (k, v) :: t, x => if k = x then t else (k, v) :: eraseA t x

/-- `std::map::operator[]` followed by assignment: insert or replace,
keeping the list sorted by key. -/
def insertA {α : Type} : List (Nat × α) → Nat → α → List (Nat × α)
  | [], x, v => [(x, v)]
  | (k, w) :: t, x, v =>
    if x < k then (x, v) :: (k, w) :: t
    else if k = x then (x, v) :: t
    else (k, w) :: insertA t x v

/-- In-place update of the value stored under key `k` (mutation through a
`std::map` iterator); all other bindings are untouched. -/
def mapAtKey {α : Type} : List (Nat × α) → Nat → (α → α) → List (Nat × α)
  | [], _, _ => []
  | (k1, v) :: t, k, f =>
    if k1 = k then (k1, f v) :: mapAtKey t k f else (k1, v) :: mapAtKey t k f

/-- Keys of the association list, in list order. -/
def keysA {α : Type} (l : List (Nat × α)) : List Nat :=
  l.map Prod.fst

/-- The keys are strictly increasing (the `std::map` representation
invariant). -/
def sortedKeysB {α : Type} : List (Nat × α) → Bool
  | [] => true
  | [_] => true
  | a :: b :: t => decide (a.1 < b.1) && sortedKeysB (b :: t)

/-! ### Basic lemmas about the association-list operations -/

theorem lookupA_eq_none_of_not_mem {α : Type} :
    ∀ (l : List (Nat × α)) (x : Nat), x ∉ keysA l → lookupA l x = none := by
  intro l x h
  induction l with
  | nil => rfl
  | cons e t ih =>
    obtain ⟨k, v⟩ := e
    simp only [keysA, List.map_cons, List.mem_cons] at h
    push_neg at h
    have hk : k ≠ x := fun he => h.1 he.symm
    simp only [lookupA, if_neg hk]
    exact ih h.2

theorem lookupA_isSome_mem_keys {α : Type} :
    ∀ (l : List (Nat × α)) (x : Nat), (lookupA l x).isSome → x ∈ keysA l := by
  intro l x h
  induction l with
  | nil => simp [lookupA] at h
  | cons e t ih =>
    obtain ⟨k, v⟩ := e
    simp only [lookupA] at h
    by_cases hk : k = x
    · simp [keysA, hk]
    · simp only [if_neg hk] at h
      simp only [keysA, List.map_cons, List.mem_cons]
      exact Or.inr (ih h)

theorem eraseA_of_not_mem {α : Type} :
    ∀ (l : List (Nat × α)) (x : Nat), x ∉ keysA l → eraseA l x = l := by
  intro l x h
  induction l with
  | nil => rfl
  | cons e t ih =>
    obtain ⟨k, v⟩ := e
    simp only [keysA, List.map_cons, List.mem_cons] at h
    push_neg at h
    have hk : k ≠ x := fun he => h.1 he.symm
    simp only [eraseA, if_neg hk]
    rw [ih h.2]

theorem keysA_mapAtKey {α : Type} :
    ∀ (l : List (Nat × α)) (k : Nat) (f : α → α),
      keysA (mapAtKey l k f) = keysA l := by
  intro l k f
  induction l with
  | nil => rfl
  | cons e t ih =>
    obtain ⟨k1, v⟩ := e
    by_cases h : k1 = k <;>
      simp only [mapAtKey, if_pos, if_neg, h, keysA, List.map_cons] at ih ⊢ <;>
      simp [ih]

theorem length_mapAtKey {α : Type} :
    ∀ (l : List (Nat × α)) (k : Nat) (f : α → α),
      (mapAtKey l k f).length = l.length := by
  intro l k f
  induction l with
  | nil => rfl
  | cons e t ih =>
    obtain ⟨k1, v⟩ := e
    by_cases h : k1 = k <;> simp [mapAtKey, h, ih]

theorem lookupA_mapAtKey_self {α : Type} :
    ∀ (l : List (Nat × α)) (k : Nat) (f : α → α),
      lookupA (mapAtKey l k f) k = (lookupA l k).map f := by
  intro l k f
  induction l with
  | nil => rfl
  | cons e t ih =>
    obtain ⟨k1, v⟩ := e
    by_cases h : k1 = k
    · simp [mapAtKey, lookupA, h]
    · simp [mapAtKey, lookupA, h, ih]

theorem lookupA_mapAtKey_ne {α : Type} :
    ∀ (l : List (Nat × α)) (k x : Nat) (f : α → α), x ≠ k →
      lookupA (mapAtKey l k f) x = lookupA l x := by
  intro l k x f hne
  induction l with
  | nil => rfl
  | cons e t ih =>
    obtain ⟨k1, v⟩ := e
    by_cases h : k1 = k
    · simp [mapAtKey, lookupA, h, Ne.symm hne, ih]
    · by_cases h2 : k1 = x
      · simp [mapAtKey, lookupA, h, h2, hne]
      · simp [mapAtKey, lookupA, h, h2, ih]

theorem lookupA_insertA_self {α : Type} :
    ∀ (l : List (Nat × α)) (x : Nat) (v : α), lookupA (insertA l x v) x = some v := by
  intro l x v
  induction l with
  | nil => simp [insertA, lookupA]
  | cons e t ih =>
    obtain ⟨k, w⟩ := e
    simp only [insertA]
    by_cases h1 : x < k
    · simp [if_pos h1, lookupA]
    · simp only [if_neg h1]
      by_cases h2 : k = x
      · simp [h2, lookupA]
      · simp only [if_neg h2, lookupA, if_neg h2]
        exact ih

theorem lookupA_insertA_ne {α : Type} :
    ∀ (l : List (Nat × α)) (x y : Nat) (v : α), y ≠ x →
      lookupA (insertA l x v) y = lookupA l y := by
  intro l x y v hne
  have hxy : x ≠ y := fun he => hne he.symm
  induction l with
  | nil => simp [insertA, lookupA, hxy]
  | cons e t ih =>
    obtain ⟨k, w⟩ := e
    simp only [insertA]
    by_cases h1 : x < k
    · simp [if_pos h1, lookupA, hxy]
    · simp only [if_neg h1]
      by_cases h2 : k = x
      · subst h2
        simp [lookupA, hxy]
      · simp only [if_neg h2, lookupA]
        by_cases h3 : k = y
        · simp [h3]
        · simp only [if_neg h3]
          exact ih

theorem eraseA_cons_self {α : Type} (k : Nat) (v : α) (t : List (Nat × α)) :
    eraseA ((k, v) :: t) k = t := by
  simp [eraseA]

theorem length_eraseA_mem {α : Type} :
    ∀ (l : List (Nat × α)) (x : Nat), x ∈ keysA l →
      (eraseA l x).length + 1 = l.length := by
  intro l x h
  induction l with
  | nil => simp [keysA] at h
  | cons e t ih =>
    obtain ⟨k, v⟩ := e
    by_cases hk : k = x
    · simp [eraseA, hk]
    · simp only [keysA, List.map_cons, List.mem_cons] at h
      rcases h with h | h
      · exact absurd h.symm hk
      · simp only [eraseA, if_neg hk, List.length_cons]
        rw [← ih h]

theorem length_insertA_not_mem {α : Type} :
    ∀ (l : List (Nat × α)) (x : Nat) (v : α), x ∉ keysA l →
      (insertA l x v).length = l.length + 1 := by
  intro l x v h
  induction l with
  | nil => simp [insertA]
  | cons e t ih =>
    obtain ⟨k, w⟩ := e
    simp only [keysA, List.map_cons, List.mem_cons] at h
    push_neg at h
    have hk : k ≠ x := fun he => h.1 he.symm
    simp only [insertA]
    by_cases h1 : x < k
    · simp [if_pos h1]
    · simp only [if_neg h1, if_neg hk, List.length_cons]
      rw [ih h.2]

/-! ### String helpers used by `PlotCanvas::Restart`

Labels occurring in this code are ASCII, so the C++ byte positions of
`std::string` coincide with character positions of the embedded
`List Char` representation. -/

/-- Characters accepted as leading whitespace by `std::atoi`. -/
def isSpaceC (ch : Char) : Bool :=
  ch = ' ' || ch = '\t' || ch = '\n' || ch = '\r' || ch = '\x0b' || ch = '\x0c'

/-- Accumulate the leading decimal digits, stopping at the first
non-digit (the `strtol`-family core loop). -/
def atoiDigits : List Char → Nat → Nat
  | [], acc => acc
  | ch :: t, acc =>
    if ch.isDigit then atoiDigits t (acc * 10 + (ch.toNat - 48)) else acc

/-- `std::atoi`: skip whitespace, optional sign, then leading digits;
returns 0 when no digits are found. -/
def atoi (s : String) : Int :=
  match s.toList.dropWhile isSpaceC with
  | '-' :: t => - (atoiDigits t 0 : Int)
  | '+' :: t => (atoiDigits t 0 : Int)
  | l => (atoiDigits l 0 : Int)

/-- Position of the last occurrence of `'_'`, scanning with a running
index (`std::string::rfind("_")`). -/
def rlastIdx : List Char → Nat → Option Nat
  | [], _ => none
  | ch :: t, i =>
    match rlastIdx t (i + 1) with
    | some j => some j
    | none => if ch = '_' then some i else none

/-- `varText.rfind("_")`. -/
def rfindUnd (s : String) : Option Nat :=
  rlastIdx s.toList 0

/-- `s.substr(0, n)`. -/
def strTake (s : String) (n : Nat) : String :=
  String.mk (s.toList.take n)

/-- `s.substr(n)`. -/
def strDrop (s : String) (n : Nat) : String :=
  String.mk (s.toList.drop n)

/-! ### Data model

`PlotData` embeds the helper class of the same name in `PlotCanvas.cc`.
Its `id` field in C++ always equals its key in the `plotData` map (it is
assigned exactly once, in `AddPlot`, to the key it is inserted under),
so it is represented by the key alone.  The opaque `IncrementalPlot *`
handle is represented by the plot's curve table. -/

/-- Modelled from the spec: the state of one curve held by a Plot
Container handle (name passed to `CreateCurve`, current label, the
`Active` flag and the `Age` counter used by `Restart`); curves start
active with age 0.  `PlotCurve`/`IncrementalPlot` are not under `src/`. -/
structure CurveData where
  name : String
  label : String
  active : Bool
  age : Nat
deriving DecidableEq, Repr

/-- One entry of `PlotCanvasPrivate::plotData`: the plot handle
(curves keyed by curve id) and the variable-to-curve map. -/
structure PlotData where
  plot : List (Nat × CurveData)
  variableCurves : List (Nat × Nat)
deriving DecidableEq, Repr

/-- Modelled from the spec: one slot of the Variable Slot Container
(`VariablePill`): its immutable `Name()` and its current `Text()`
label.  `VariablePill`/`VariablePillContainer` are not under `src/`. -/
structure Pill where
  name : String
  text : String
deriving DecidableEq, Repr

/-- The canvas state: `PlotCanvasPrivate` plus the externally owned
collaborators the canvas drives (pill container, curve registry, plot
layout).  `nextPillId` and `nextCurveId` are the fresh-id counters of
the slot container and of the curve allocation (modelled from the spec:
slot ids and curve ids are unique). -/
structure Canvas where
  plotData : List (Nat × PlotData)
  emptyPlotVisible : Bool
  globalPlotId : Nat
  pills : List (Nat × Pill)
  nextPillId : Nat
  manager : List Nat
  layout : List Nat
  nextCurveId : Nat
deriving DecidableEq, Repr

/-- `PlotCanvas::EMPTY_PLOT = IGN_UINT32_MAX`. -/
def EMPTY_PLOT : Nat := 4294967295

/-- `VariablePill::EMPTY_VARIABLE` (same maximum-value sentinel). -/
def EMPTY_VARIABLE : Nat := 4294967295

/-- The canvas right after construction: no plot records, the initial
empty plot shown, nothing registered. -/
def initCanvas : Canvas :=
  { plotData := [], emptyPlotVisible := true, globalPlotId := 0,
    pills := [], nextPillId := 0, manager := [], layout := [],
    nextCurveId := 0 }

/-- First record (key, record, curve id) whose `variableCurves` contains
the variable, scanning `plotData` begin-to-end (the search loop shared
by `PlotByVariable`, `OnAddVariable`, `OnSetVariableLabel`,
`RemoveVariable` and `PlotCurve`). -/
def findOwner : List (Nat × PlotData) → Nat → Option (Nat × PlotData × Nat)
  | [], _ => none
  | (k, r) :: rest, x =>
    match lookupA r.variableCurves x with
    | some cid => some (k, r, cid)
    | none => findOwner rest x

/-- Sorted no-duplicate insertion into a `Nat` set (curve-registry
contents are represented canonically as a sorted id list). -/
def insertNatSorted : List Nat → Nat → List Nat
  | [], x => [x]
  | a :: t, x =>
    if x < a then x :: a :: t
    else if a = x then a :: t
    else a :: insertNatSorted t x

/-- Remove the first occurrence of `x`. -/
def eraseNatFirst : List Nat → Nat → List Nat
  | [], _ => []
  | a :: t, x => if a = x then t else a :: eraseNatFirst t x

/-- Modelled from the spec: `PlotManager::RemoveCurve` (not under
`src/`) unregisters the given curve and tolerates a curve it does not
recognise (or a null pointer) as a no-op.  Both `RemoveVariable`
overloads hand it `plot->Curve(_id)`: the plot-handle curve lookup
(`LookupCurve(curveId)` in the spec) applied to the *variable* id, so
the registry entry is removed only when the plot holds a curve whose
curve id equals the variable id. -/
def managerRemoveAt (plot : List (Nat × CurveData)) (x : Nat) (mgr : List Nat) : List Nat :=
  if (lookupA plot x).isSome then eraseNatFirst mgr x else mgr

/-! ### The canvas operations of `PlotCanvas.cc` -/

/-- `PlotCanvas::AddPlot` (lines 366-378): allocate a fresh plot handle,
append it to the layout, record it under the next global plot id and
return that id.  `globalPlotId` is `unsigned int`, hence the `2^32`
wrap-around on the post-increment. -/
def AddPlot (c : Canvas) : Nat × Canvas :=
  let pid := c.globalPlotId
  (pid,
    { c with
      globalPlotId := (c.globalPlotId + 1) % 4294967296,
      layout := c.layout ++ [pid],
      plotData := insertA c.plotData pid { plot := [], variableCurves := [] } })

/-- `PlotCanvas::AddVariable(_id, _variable, _plotId)` (lines 249-276):
resolve the target plot (a fresh one when the sentinel is passed),
silently no-op when the resolved plot id is absent, create a curve named
`_variable` in the plot (modelled from the spec: `CreateCurve` returns a
fresh active curve labelled with the name), record `_id ↦ curveId`, hide
the initial empty plot, and register the curve with the manager. -/
def AddVariable (id : Nat) (varName : String) (plotIdArg : Nat) (c : Canvas) : Canvas :=
  let pc := if plotIdArg = EMPTY_PLOT then AddPlot c else (plotIdArg, c)
  let pid := pc.1
  let c0 := pc.2
  match lookupA c0.plotData pid with
  | none => c0
  | some _ =>
    let cid := c0.nextCurveId
    let cu : CurveData := { name := varName, label := varName, active := true, age := 0 }
    let c1 :=
      { c0 with
        nextCurveId := cid + 1,
        plotData := mapAtKey c0.plotData pid
          (fun r =>
            { r with
              plot := insertA r.plot cid cu,
              variableCurves := insertA r.variableCurves id cid }) }
    let c2 :=
      if c1.plotData.isEmpty then c1 else { c1 with emptyPlotVisible := false }
    { c2 with manager := insertNatSorted c2.manager cid }

/-- `PlotCanvas::OnAddVariable` (lines 435-456): with a real target
variable, add next to the record owning it (first match, then break);
with the sentinel, add to a new plot.  When the target is not found
anywhere, nothing happens. -/
def OnAddVariable (id : Nat) (varName : String) (targetId : Nat) (c : Canvas) : Canvas :=
  if targetId ≠ EMPTY_VARIABLE then
    match findOwner c.plotData targetId with
    | some (k, _, _) => AddVariable id varName k c
    | none => c
  else
    AddVariable id varName EMPTY_PLOT c

/-- `PlotCanvas::AddVariable(_variable, _plotId)` (lines 226-246): pick
an arbitrary (first) variable of the given plot as attachment target,
then go through the pill container, which assigns a fresh slot id and
raises the `VariableAdded` event handled by `OnAddVariable`.  Returns
the new slot id (modelled from the spec: `AddSlot(name, anchorId)`
creates a fresh slot whose name and label are the variable name). -/
def AddVariableByName (varName : String) (plotIdArg : Nat) (c : Canvas) : Nat × Canvas :=
  let targetId :=
    if plotIdArg ≠ EMPTY_PLOT then
      match lookupA c.plotData plotIdArg with
      | some r =>
        match r.variableCurves with
        | [] => EMPTY_VARIABLE
        | (k, _) :: _ => k
      | none => EMPTY_VARIABLE
    else EMPTY_VARIABLE
  let np := c.nextPillId
  let c1 :=
    { c with
      nextPillId := np + 1,
      pills := insertA c.pills np { name := varName, text := varName } }
  (np, OnAddVariable np varName targetId c1)

/-- `PlotCanvas::RemoveVariable(_id)` (lines 279-318): scan all records
for the variable; at the first hit erase its mapping entry, and if that
empties the record, remove `plot->Curve(_id)` from the manager, remove
the pill, detach the plot from the layout and destroy the record;
otherwise only remove the curve from the plot handle.  Finally show the
empty plot when no records remain. -/
def RemoveVariable (id : Nat) (c : Canvas) : Canvas :=
  let c1 :=
    match findOwner c.plotData id with
    | none => c
    | some (k, r, cid) =>
      if (eraseA r.variableCurves id).isEmpty then
        { c with
          manager := managerRemoveAt r.plot id c.manager,
          pills := eraseA c.pills id,
          layout := eraseNatFirst c.layout k,
          plotData := eraseA c.plotData k }
      else
        { c with
          plotData := mapAtKey c.plotData k
            (fun r2 =>
              { r2 with
                variableCurves := eraseA r2.variableCurves id,
                plot := eraseA r2.plot cid }) }
  if c1.plotData.isEmpty then { c1 with emptyPlotVisible := true } else c1

/-- `PlotCanvas::RemoveVariable(_id, _plotId)` (lines 321-362): like the
scan-all overload but addressed at one record; the manager removal and
the pill removal happen unconditionally (even when the record keeps
other variables), the pill removal last. -/
def RemoveVariableInPlot (id pid : Nat) (c : Canvas) : Canvas :=
  match lookupA c.plotData pid with
  | none => c
  | some r =>
    match lookupA r.variableCurves id with
    | none => c
    | some cid =>
      let mgr := managerRemoveAt r.plot id c.manager
      let c1 :=
        if (eraseA r.variableCurves id).isEmpty then
          { c with
            manager := mgr,
            layout := eraseNatFirst c.layout pid,
            plotData := eraseA c.plotData pid }
        else
          { c with
            manager := mgr,
            plotData := mapAtKey c.plotData pid
              (fun r2 =>
                { r2 with
                  variableCurves := eraseA r2.variableCurves id,
                  plot := eraseA r2.plot cid }) }
      let c2 :=
        if c1.plotData.isEmpty then { c1 with emptyPlotVisible := true } else c1
      { c2 with pills := eraseA c2.pills id }

/-- The `while (it->second->variableCurves.size() > 1)` loop of
`RemovePlot`, removing the first variable of the record each round;
the fuel argument bounds the iteration count (the C++ loop terminates
because each round shrinks the map by one entry). -/
def removeVarsLoop : Nat → Nat → Canvas → Canvas
  | 0, _, c => c
  | fuel + 1, pid, c =>
    match lookupA c.plotData pid with
    | none => c
    | some r =>
      if r.variableCurves.length > 1 then
        match r.variableCurves with
        | [] => c
        | (k, _) :: _ => removeVarsLoop fuel pid (RemoveVariableInPlot k pid c)
      else c

/-- `PlotCanvas::RemovePlot` (lines 381-408): absent id is a no-op; a
record without curves is detached from the layout and destroyed
directly; otherwise all variables but the last are removed one by one
and removing the last one cascades into destroying the record. -/
def RemovePlot (pid : Nat) (c : Canvas) : Canvas :=
  match lookupA c.plotData pid with
  | none => c
  | some r =>
    if r.variableCurves.isEmpty then
      { c with
        layout := eraseNatFirst c.layout pid,
        plotData := eraseA c.plotData pid }
    else
      let c1 := removeVarsLoop r.variableCurves.length pid c
      match lookupA c1.plotData pid with
      | some r1 =>
        match r1.variableCurves with
        | [] => c1
        | (k, _) :: _ => RemoveVariableInPlot k pid c1
      | none => c1

/-- The `while (!plotData.empty())` loop of `Clear`, with fuel (each
round `RemovePlot` deletes the first record, so `plotData.length`
rounds suffice). -/
def clearLoop : Nat → Canvas → Canvas
  | 0, c => c
  | fuel + 1, c =>
    match c.plotData with
    | [] => c
    | (k, _) :: _ => clearLoop fuel (RemovePlot k c)

/-- `PlotCanvas::Clear` (lines 411-418). -/
def Clear (c : Canvas) : Canvas :=
  clearLoop c.plotData.length c

/-- `PlotCanvas::PlotByVariable` (lines 421-432). -/
def PlotByVariable (c : Canvas) (variableId : Nat) : Nat :=
  match findOwner c.plotData variableId with
  | some (k, _, _) => k
  | none => EMPTY_PLOT

/-- `PlotCanvas::PlotCount` (lines 672-679): live records plus the
empty plot when it is visible. -/
def PlotCount (c : Canvas) : Nat :=
  c.plotData.length + (if c.emptyPlotVisible then 1 else 0)

/-- `PlotCanvas::VariableCount` (lines 682-689). -/
def VariableCount (c : Canvas) (pid : Nat) : Nat :=
  match lookupA c.plotData pid with
  | some r => r.variableCurves.length
  | none => 0

/-- `PlotCanvas::OnSetVariableLabel` (lines 551-565): forward the label
to the owning plot's curve (first owner, then break). -/
def OnSetVariableLabel (id : Nat) (lbl : String) (c : Canvas) : Canvas :=
  match findOwner c.plotData id with
  | some (k, _, cid) =>
    { c with
      plotData := mapAtKey c.plotData k
        (fun r => { r with plot := mapAtKey r.plot cid (fun cu => { cu with label := lbl }) }) }
  | none => c

/-- `PlotCanvas::SetVariableLabel` (lines 217-223): set the pill label
and let the `VariableLabelChanged` signal drive `OnSetVariableLabel`
(modelled from the spec: `SetSlotLabel` updates the slot's label and
emits the relabel event; an unknown slot id is a no-op). -/
def SetVariableLabel (id : Nat) (lbl : String) (c : Canvas) : Canvas :=
  match lookupA c.pills id with
  | none => c
  | some _ =>
    OnSetVariableLabel id lbl
      { c with pills := mapAtKey c.pills id (fun p => { p with text := lbl }) }

/-- The search loop of `OnMoveVariable` (lines 475-492): one pass
recording the record owning `_id` (with its curve id) and the record
owning `_targetId`, breaking as soon as both are found. -/
def findMoveAux (id targetId : Nat) :
    List (Nat × PlotData) → Option Nat → Nat → Option Nat → Option Nat × Nat × Option Nat
  | [], so, cid, tg => (so, cid, tg)
  | (k, r) :: rest, so, cid, tg =>
    let p :=
      match lookupA r.variableCurves id with
      | some c2 => (some k, c2)
      | none => (so, cid)
    let to2 := if (lookupA r.variableCurves targetId).isSome then some k else tg
    if p.1.isSome && to2.isSome then (p.1, p.2, to2)
    else findMoveAux id targetId rest p.1 p.2 to2

/-- `PlotCanvas::OnMoveVariable` (lines 466-548).  When the variable is
owned by some record: detach its curve from that plot, erase the
mapping entry, re-attach the curve to the record owning the target
variable (or to a brand-new plot, hiding the empty plot), and destroy
the now-empty source record if the move emptied it.  The C++ erase of
the source record scans `plotData` comparing pointers; the scan is
modelled by the source record's key, which identifies the same entry
whenever plot ids are unique (guaranteed while the global id counter
has not wrapped around).  A missing curve handle would be a null-pointer
dereference in C++ (`plotCurve->Id()`); that unreachable branch is
modelled as a no-op. -/
def OnMoveVariable (id targetId : Nat) (c : Canvas) : Canvas :=
  let found := findMoveAux id targetId c.plotData none 0 none
  match found.1 with
  | none => c
  | some sk =>
    let curveId := found.2.1
    match lookupA c.plotData sk with
    | none => c
    | some sr =>
      match lookupA sr.plot curveId with
      | none => c
      | some cu =>
        let c1 :=
          { c with
            plotData := mapAtKey c.plotData sk
              (fun r =>
                { r with
                  plot := eraseA r.plot curveId,
                  variableCurves := eraseA r.variableCurves id }) }
        let c2 :=
          match found.2.2 with
          | some tk =>
            { c1 with
              plotData := mapAtKey c1.plotData tk
                (fun r =>
                  { r with
                    plot := insertA r.plot curveId cu,
                    variableCurves := insertA r.variableCurves id curveId }) }
          | none =>
            let pc := AddPlot c1
            let c2a :=
              { pc.2 with
                plotData := mapAtKey pc.2.plotData pc.1
                  (fun r =>
                    { r with
                      plot := insertA r.plot curveId cu,
                      variableCurves := insertA r.variableCurves id curveId }) }
            if c2a.plotData.isEmpty then c2a else { c2a with emptyPlotVisible := false }
        match lookupA c2.plotData sk with
        | some r2 =>
          if r2.variableCurves.isEmpty then
            { c2 with
              layout := eraseNatFirst c2.layout sk,
              plotData := eraseA c2.plotData sk }
          else c2
        | none => c2

/-- `PlotCanvas::Update` (lines 568-573): refreshes every plot handle;
the canvas bookkeeping state is untouched. -/
def Update (c : Canvas) : Canvas := c

/-- The age-suffix relabelling of `Restart` for a curve that is more
than one run old (lines 626-638): locate the last `'_'`; when the
trailing substring `atoi`-parses to a positive integer, replace it by
the new age, otherwise leave the label alone (`none`). -/
def restartRelabelOld (varText : String) (newAge : Nat) : Option String :=
  match rfindUnd varText with
  | none => none
  | some idx =>
    if 0 < atoi (strDrop varText (idx + 1)) then
      some (strTake varText (idx + 1) ++ toString newAge)
    else none

/-- The body of the double loop of `Restart` (lines 584-639) for one
`(plot key, variable id, curve id)` entry: skip silently when the pill
or the curve is gone; deactivate and unregister an active curve and
remember it for cloning; increment the curve age; relabel the pill with
the age suffix (`"_1"` for a curve aged once, otherwise the suffix
update of `restartRelabelOld`). -/
def restartStep (st : Canvas × List (String × Nat × Nat)) (e : Nat × Nat × Nat) :
    Canvas × List (String × Nat × Nat) :=
  let c := st.1
  let acc := st.2
  let pk := e.1
  let vk := e.2.1
  let cid := e.2.2
  match lookupA c.pills vk with
  | none => (c, acc)
  | some pill =>
    match lookupA c.plotData pk with
    | none => (c, acc)
    | some r =>
      match lookupA r.plot cid with
      | none => (c, acc)
      | some cu =>
        let c1 :=
          if cu.active then
            { c with
              plotData := mapAtKey c.plotData pk
                (fun r2 => { r2 with plot := mapAtKey r2.plot cid (fun u => { u with active := false }) }),
              manager := eraseNatFirst c.manager cid }
          else c
        let acc1 := if cu.active then acc ++ [(pill.text, vk, pk)] else acc
        let newAge := cu.age + 1
        let c2 :=
          { c1 with
            plotData := mapAtKey c1.plotData pk
              (fun r2 => { r2 with plot := mapAtKey r2.plot cid (fun u => { u with age := newAge }) }) }
        let varText := pill.text
        let c3 :=
          if newAge = 1 then SetVariableLabel vk (varText ++ "_1") c2
          else
            match restartRelabelOld varText newAge with
            | some newLbl => SetVariableLabel vk newLbl c2
            | none => c2
        (c3, acc1)

/-- Snapshot of the iteration domain of `Restart`'s double loop.  The
loop structure (which records and which variable entries exist) is not
mutated during the first phase, so iterating the snapshot in order
matches iterating the live maps. -/
def restartSnapshot (c : Canvas) : List (Nat × Nat × Nat) :=
  (c.plotData.map
    (fun e => e.2.variableCurves.map (fun v => (e.1, v.1, v.2)))).flatten

/-- The cloning loop of `Restart` (lines 643-656): re-add a variable
with the pill's original name to the plot it lived in, and give the new
pill the remembered old label when it differs from the bare name. -/
def restartClone (c : Canvas) (e : String × Nat × Nat) : Canvas :=
  let varText := e.1
  let vk := e.2.1
  let pk := e.2.2
  match lookupA c.pills vk with
  | none => c
  | some pill =>
    let nc := AddVariableByName pill.name pk c
    if varText ≠ pill.name then SetVariableLabel nc.1 varText nc.2 else nc.2

/-- `PlotCanvas::Restart` (lines 576-657). -/
def Restart (c : Canvas) : Canvas :=
  let phase1 := (restartSnapshot c).foldl restartStep (c, [])
  phase1.2.foldl restartClone phase1.1

/-! ### Observers and well-formedness -/

/-- Keys of the records whose mapping contains the variable. -/
def ownersOf (c : Canvas) (v : Nat) : List Nat :=
  keysA (c.plotData.filter (fun e => (lookupA e.2.variableCurves v).isSome))

/-- Number of mapping entries for the variable, over all records. -/
def entriesFor (c : Canvas) (v : Nat) : Nat :=
  (c.plotData.map (fun e => e.2.variableCurves.countP (fun p => p.1 = v))).sum

/-- Total number of variable-to-curve entries over all records. -/
def sumVars (c : Canvas) : Nat :=
  (c.plotData.map (fun e => e.2.variableCurves.length)).sum

/-- Per-record well-formedness: both maps sorted, every mapped curve id
present in the plot handle, record key below the global id counter. -/
def recOkB (gp : Nat) (e : Nat × PlotData) : Bool :=
  sortedKeysB e.2.variableCurves && sortedKeysB e.2.plot &&
    e.2.variableCurves.all (fun p => (lookupA e.2.plot p.2).isSome) &&
    decide (e.1 < gp)

/-- A variable id appears in the mapping of at most one record
(pairwise disjointness of the mappings). -/
def varsDisjointB : List (Nat × PlotData) → Bool
  | [] => true
  | e :: t =>
    e.2.variableCurves.all
        (fun p => t.all (fun e2 => (lookupA e2.2.variableCurves p.1).isNone)) &&
      varsDisjointB t

/-- The data-model invariants of the canvas (spec section 3): sorted
maps, unique variable ownership, mapped curves existing in their plot
handles, and plot ids below the (unwrapped) global counter. -/
def wellFormedB (c : Canvas) : Bool :=
  sortedKeysB c.plotData && c.plotData.all (recOkB c.globalPlotId) &&
    varsDisjointB c.plotData && decide (c.globalPlotId < 4294967295)

/-- Propositional form of `wellFormedB`. -/
def wellFormed (c : Canvas) : Prop := wellFormedB c = true

/-- The placeholder/liveness invariant: the empty plot is visible
exactly when no records exist, and no record has an empty mapping. -/
def canvasInv (c : Canvas) : Prop :=
  (c.emptyPlotVisible = true ↔ c.plotData = []) ∧
    ∀ e ∈ c.plotData, e.2.variableCurves ≠ []

/-! ### Reachability

`ReachableFull` closes the initial canvas under every exposed operation
named by the invariant claim; `ReachableRestricted` omits the bare
`AddPlot` call. -/

inductive ReachableFull : Canvas → Prop where
  | init : ReachableFull initCanvas
  | addPlot (c : Canvas) : ReachableFull c → ReachableFull (AddPlot c).2
  | addVariable (id : Nat) (vn : String) (pid : Nat) (c : Canvas) :
      ReachableFull c → ReachableFull (AddVariable id vn pid c)
  | addVariableByName (vn : String) (pid : Nat) (c : Canvas) :
      ReachableFull c → ReachableFull (AddVariableByName vn pid c).2
  | removeVariable (id : Nat) (c : Canvas) :
      ReachableFull c → ReachableFull (RemoveVariable id c)
  | removeVariableInPlot (id pid : Nat) (c : Canvas) :
      ReachableFull c → ReachableFull (RemoveVariableInPlot id pid c)
  | removePlot (pid : Nat) (c : Canvas) :
      ReachableFull c → ReachableFull (RemovePlot pid c)
  | onMoveVariable (id tid : Nat) (c : Canvas) :
      ReachableFull c → ReachableFull (OnMoveVariable id tid c)
  | clear (c : Canvas) : ReachableFull c → ReachableFull (Clear c)

inductive ReachableRestricted : Canvas → Prop where
  | init : ReachableRestricted initCanvas
  | addVariable (id : Nat) (vn : String) (pid : Nat) (c : Canvas) :
      ReachableRestricted c → ReachableRestricted (AddVariable id vn pid c)
  | addVariableByName (vn : String) (pid : Nat) (c : Canvas) :
      ReachableRestricted c → ReachableRestricted (AddVariableByName vn pid c).2
  | removeVariable (id : Nat) (c : Canvas) :
      ReachableRestricted c → ReachableRestricted (RemoveVariable id c)
  | removeVariableInPlot (id pid : Nat) (c : Canvas) :
      ReachableRestricted c → ReachableRestricted (RemoveVariableInPlot id pid c)
  | removePlot (pid : Nat) (c : Canvas) :
      ReachableRestricted c → ReachableRestricted (RemovePlot pid c)
  | onMoveVariable (id tid : Nat) (c : Canvas) :
      ReachableRestricted c → ReachableRestricted (OnMoveVariable id tid c)
  | clear (c : Canvas) : ReachableRestricted c → ReachableRestricted (Clear c)

/-! ### Concrete canvas states used by the witnesses, examples and
counterexamples -/

/-- One plot (id 0) holding one active curve for the variable named
`"v"` (pill id 10, curve id 0): the starting state of the `Restart`
scenario of the spec's testable properties. -/
def restartDemo : Canvas :=
  { plotData := [(0, { plot := [(0, { name := "v", label := "v", active := true, age := 0 })],
                       variableCurves := [(10, 0)] })],
    emptyPlotVisible := false, globalPlotId := 1,
    pills := [(10, { name := "v", text := "v" })], nextPillId := 11,
    manager := [0], layout := [0], nextCurveId := 1 }

/-- One plot (id 0) whose single variable has slot id 5 but curve id 0:
slot ids and curve ids come from independent counters, so they differ in
general. -/
def mismatchDemo : Canvas :=
  { plotData := [(0, { plot := [(0, { name := "x", label := "x", active := true, age := 0 })],
                       variableCurves := [(5, 0)] })],
    emptyPlotVisible := false, globalPlotId := 1,
    pills := [(5, { name := "x", text := "x" })], nextPillId := 6,
    manager := [0], layout := [0], nextCurveId := 1 }

/-- One plot (id 0) holding two variables (slot ids 1 and 2, curve ids
0 and 1). -/
def twoVarDemo : Canvas :=
  { plotData := [(0, { plot := [(0, { name := "a", label := "a", active := true, age := 0 }),
                               (1, { name := "b", label := "b", active := true, age := 0 })],
                       variableCurves := [(1, 0), (2, 1)] })],
    emptyPlotVisible := false, globalPlotId := 1,
    pills := [(1, { name := "a", text := "a" }), (2, { name := "b", text := "b" })],
    nextPillId := 3, manager := [0, 1], layout := [0], nextCurveId := 2 }

/-- A canvas with three plots, each holding one variable (built by three
sentinel-target `AddVariable` calls from the initial canvas). -/
def threePlotDemo : Canvas :=
  (AddVariableByName "c" EMPTY_PLOT
    (AddVariableByName "b" EMPTY_PLOT
      (AddVariableByName "a" EMPTY_PLOT initCanvas).2).2).2

/-- A state reached by `AddVariable`, `AddPlot`, `RemoveVariable`,
`RemovePlot` in which no records remain yet the empty-plot placeholder
is hidden (the direct-deletion branch of `RemovePlot` never re-shows
it). -/
def emptyHiddenDemo : Canvas :=
  RemovePlot 1 (RemoveVariable 0 (AddPlot (AddVariableByName "a" EMPTY_PLOT initCanvas).2).2)

/-! ### Theorems for the concrete scenario claims -/

/-- C3: starting from a canvas with one plot containing one active curve
whose variable is named `"v"`, one `Restart` leaves the old curve
deactivated and labelled `"v_1"` while a new active curve named `"v"`
(no suffix) exists in the same plot; a second `Restart` relabels the
frozen curve to `"v_2"` and again produces a fresh active `"v"`. -/
theorem restart_twice_ages_labels :
    (lookupA (Restart restartDemo).pills 10 = some { name := "v", text := "v_1" }) ∧
    ((lookupA (Restart restartDemo).plotData 0).bind (fun r => lookupA r.plot 0) =
      some { name := "v", label := "v_1", active := false, age := 1 }) ∧
    ((lookupA (Restart restartDemo).plotData 0).bind (fun r => lookupA r.variableCurves 11) =
      some 1) ∧
    ((lookupA (Restart restartDemo).plotData 0).bind (fun r => lookupA r.plot 1) =
      some { name := "v", label := "v", active := true, age := 0 }) ∧
    (lookupA (Restart restartDemo).pills 11 = some { name := "v", text := "v" }) ∧
    (lookupA (Restart (Restart restartDemo)).pills 10 = some { name := "v", text := "v_2" }) ∧
    ((lookupA (Restart (Restart restartDemo)).plotData 0).bind (fun r => lookupA r.plot 0) =
      some { name := "v", label := "v_2", active := false, age := 2 }) ∧
    ((lookupA (Restart (Restart restartDemo)).plotData 0).bind
        (fun r => lookupA r.variableCurves 12) = some 2) ∧
    ((lookupA (Restart (Restart restartDemo)).plotData 0).bind (fun r => lookupA r.plot 2) =
      some { name := "v", label := "v", active := true, age := 0 }) ∧
    (lookupA (Restart (Restart restartDemo)).pills 12 = some { name := "v", text := "v" }) := by
  decide

/-- C4: on a canvas whose only variable has slot id 5 but curve id 0,
`RemoveVariable(5)` destroys the record, the pill and the layout entry
as claimed, but the curve registry still contains curve 0 afterwards:
the code passes the variable id to the plot's curve-id lookup
(`plot->Curve(_id)`), which finds nothing, so the registry
unregistration claimed by the spec never happens. -/
theorem removeVariable_skips_registry_unregistration :
    (RemoveVariable 5 mismatchDemo).plotData = [] ∧
    (RemoveVariable 5 mismatchDemo).pills = [] ∧
    (RemoveVariable 5 mismatchDemo).layout = [] ∧
    (RemoveVariable 5 mismatchDemo).manager = [0] ∧
    (RemoveVariable 5 mismatchDemo).manager ≠ [] := by
  decide

/-- C1 counterexample: `AddPlot` is one of the exposed operations, yet
after a bare `AddPlot` on the initial canvas the record map is non-empty
while the empty-plot placeholder is still visible, so the claimed
visible-iff-empty invariant fails at a reachable state. -/
theorem addPlot_leaves_placeholder_visible :
    ReachableFull (AddPlot initCanvas).2 ∧
    (AddPlot initCanvas).2.plotData ≠ [] ∧
    (AddPlot initCanvas).2.emptyPlotVisible = true :=
  ⟨ReachableFull.addPlot initCanvas ReachableFull.init, by decide, by decide⟩

/-- C5 counterexample: clearing a canvas with three one-variable plots
leaves no records, but `PlotCount()` returns 1 — the placeholder is
visible again and is counted — not 0 as claimed. -/
theorem clear_plotCount_not_zero :
    (Clear threePlotDemo).plotData = [] ∧
    PlotCount (Clear threePlotDemo) = 1 ∧
    PlotCount (Clear threePlotDemo) ≠ 0 := by
  decide

/-- C6 counterexample: on a record holding two variables, the
scan-all-plots overload leaves the removed variable's pill in the slot
container while the specified-plot overload removes it, so the two
overloads do not produce identical states for a variable that is not
the last one of its record. -/
theorem removeVariable_overloads_differ :
    PlotByVariable twoVarDemo 1 = 0 ∧
    RemoveVariable 1 twoVarDemo ≠ RemoveVariableInPlot 1 0 twoVarDemo := by
  decide

/-- C9 counterexample: `emptyHiddenDemo` is reachable by exposed
operations, has no records, owns no variable 7, and yet
`RemoveVariable(7)` changes the state: the trailing
`plotData.empty()` check re-shows the hidden placeholder, which is
observable through `PlotCount`. -/
theorem removeVariable_absent_id_shows_placeholder :
    ReachableFull emptyHiddenDemo ∧
    findOwner emptyHiddenDemo.plotData 7 = none ∧
    RemoveVariable 7 emptyHiddenDemo ≠ emptyHiddenDemo :=
  ⟨ReachableFull.removePlot 1 _
      (ReachableFull.removeVariable 0 _
        (ReachableFull.addPlot _
          (ReachableFull.addVariableByName "a" EMPTY_PLOT initCanvas ReachableFull.init))),
    by decide, by decide⟩

/-! ### The age-suffix relabelling of `Restart` (C8) -/

theorem setVariableLabel_pills (vk : Nat) (lbl : String) (c : Canvas) (pill : Pill)
    (hp : lookupA c.pills vk = some pill) :
    lookupA (SetVariableLabel vk lbl c).pills vk = some { pill with text := lbl } := by
  unfold SetVariableLabel
  rw [hp]
  unfold OnSetVariableLabel
  cases hfo : findOwner c.plotData vk with
  | none => simp [lookupA_mapAtKey_self, hp]
  | some x =>
    obtain ⟨k, r, cid⟩ := x
    simp [lookupA_mapAtKey_self, hp]

/-- C8: in the loop body of `Restart`, for a curve whose age after
incrementing exceeds 1, the variable's label is replaced by the prefix
up to (and including) the last underscore followed by the new age
exactly when the text after the label's last `'_'` `atoi`-parses to a
positive integer; when the label has no underscore, or the trailing
substring does not parse to a positive integer, the label is left
unchanged. -/
theorem restartStep_age_suffix_update
    (c : Canvas) (acc : List (String × Nat × Nat)) (pk vk cid : Nat)
    (pill : Pill) (r : PlotData) (cu : CurveData)
    (hp : lookupA c.pills vk = some pill)
    (hr : lookupA c.plotData pk = some r)
    (hc : lookupA r.plot cid = some cu)
    (hage : 1 ≤ cu.age) :
    lookupA (restartStep (c, acc) (pk, vk, cid)).1.pills vk =
      some { pill with text :=
        (match rfindUnd pill.text with
          | none => pill.text
          | some idx =>
            if 0 < atoi (strDrop pill.text (idx + 1)) then
              strTake pill.text (idx + 1) ++ toString (cu.age + 1)
            else pill.text) } := by
  have h1 : ¬(cu.age + 1 = 1) := by omega
  unfold restartStep
  simp only [hp, hr, hc]
  simp only [restartRelabelOld]
  cases hidx : rfindUnd pill.text with
  | none =>
    simp only [hidx]
    cases hact : cu.active <;> simp [hact, h1, hp]
  | some idx =>
    simp only [hidx]
    by_cases hpos : 0 < atoi (strDrop pill.text (idx + 1))
    · simp only [if_pos hpos]
      cases hact : cu.active <;>
        · simp only [hact, Bool.false_eq_true, ite_false, ite_true, if_neg h1]
          exact setVariableLabel_pills _ _ _ _ hp
    · simp only [if_neg hpos]
      cases hact : cu.active <;> simp [hact, h1, hp]

/-! ### More association-list lemmas -/

theorem lookupA_some_mem {α : Type} :
    ∀ (l : List (Nat × α)) (k : Nat) (v : α), lookupA l k = some v → (k, v) ∈ l := by
  intro l k v h
  induction l with
  | nil => simp [lookupA] at h
  | cons e t ih =>
    obtain ⟨k1, w⟩ := e
    by_cases hk : k1 = k
    · subst hk
      simp [lookupA] at h
      subst h
      exact List.mem_cons_self _ _
    · simp only [lookupA, if_neg hk] at h
      exact List.mem_cons_of_mem _ (ih h)

theorem lookupA_ne_nil {α : Type} (l : List (Nat × α)) (k : Nat) (v : α)
    (h : lookupA l k = some v) : l ≠ [] := by
  intro hl
  subst hl
  simp [lookupA] at h

theorem eraseA_sublist {α : Type} :
    ∀ (l : List (Nat × α)) (k : Nat), (eraseA l k).Sublist l := by
  intro l k
  induction l with
  | nil => simp [eraseA]
  | cons e t ih =>
    obtain ⟨k1, v⟩ := e
    by_cases hk : k1 = k
    · simp only [eraseA, if_pos hk]
      exact (List.sublist_cons_self _ _)
    · simp only [eraseA, if_neg hk]
      exact ih.cons₂ _

theorem mem_of_mem_eraseA {α : Type} (l : List (Nat × α)) (k : Nat) (e : Nat × α)
    (h : e ∈ eraseA l k) : e ∈ l :=
  (eraseA_sublist l k).mem h

theorem nodup_keysA_eraseA {α : Type} (l : List (Nat × α)) (k : Nat)
    (h : (keysA l).Nodup) : (keysA (eraseA l k)).Nodup :=
  ((eraseA_sublist l k).map Prod.fst).nodup h

theorem lookupA_eraseA_self_nodup {α : Type} :
    ∀ (l : List (Nat × α)) (k : Nat), (keysA l).Nodup →
      lookupA (eraseA l k) k = none := by
  intro l k h
  induction l with
  | nil => rfl
  | cons e t ih =>
    obtain ⟨k1, v⟩ := e
    simp only [keysA, List.map_cons, List.nodup_cons] at h
    by_cases hk : k1 = k
    · subst hk
      simp only [eraseA, if_pos rfl]
      exact lookupA_eq_none_of_not_mem t k1 h.1
    · simp only [eraseA, if_neg hk, lookupA, if_neg hk]
      exact ih h.2

theorem lookupA_eraseA_ne {α : Type} :
    ∀ (l : List (Nat × α)) (k x : Nat), x ≠ k →
      lookupA (eraseA l k) x = lookupA l x := by
  intro l k x hne
  induction l with
  | nil => rfl
  | cons e t ih =>
    obtain ⟨k1, v⟩ := e
    by_cases hk : k1 = k
    · subst hk
      rw [eraseA_cons_self]
      simp [lookupA, Ne.symm hne]
    · simp only [eraseA, if_neg hk, lookupA]
      by_cases h2 : k1 = x
      · simp [h2]
      · simp only [if_neg h2]
        exact ih

theorem mapAtKey_not_mem {α : Type} :
    ∀ (l : List (Nat × α)) (k : Nat) (f : α → α), k ∉ keysA l →
      mapAtKey l k f = l := by
  intro l k f h
  induction l with
  | nil => rfl
  | cons e t ih =>
    obtain ⟨k1, v⟩ := e
    simp only [keysA, List.map_cons, List.mem_cons] at h
    push_neg at h
    simp only [mapAtKey, if_neg (fun he : k1 = k => h.1 he.symm)]
    rw [ih h.2]

theorem eraseA_mapAtKey_nodup {α : Type} :
    ∀ (l : List (Nat × α)) (k : Nat) (f : α → α), (keysA l).Nodup →
      eraseA (mapAtKey l k f) k = eraseA l k := by
  intro l k f h
  induction l with
  | nil => rfl
  | cons e t ih =>
    obtain ⟨k1, v⟩ := e
    simp only [keysA, List.map_cons, List.nodup_cons] at h
    by_cases hk : k1 = k
    · subst hk
      simp only [mapAtKey, if_pos rfl, eraseA, if_pos rfl]
      exact mapAtKey_not_mem t k1 f h.1
    · simp only [mapAtKey, if_neg hk, eraseA, if_neg hk]
      rw [ih h.2]

theorem mapAtKey_comp {α : Type} :
    ∀ (l : List (Nat × α)) (k : Nat) (f g : α → α),
      mapAtKey (mapAtKey l k f) k g = mapAtKey l k (fun v => g (f v)) := by
  intro l k f g
  induction l with
  | nil => rfl
  | cons e t ih =>
    obtain ⟨k1, v⟩ := e
    by_cases hk : k1 = k
    · simp only [mapAtKey, if_pos hk, ih]
    · simp only [mapAtKey, if_neg hk, ih]

theorem mapAtKey_eq_self_of {α : Type} :
    ∀ (l : List (Nat × α)) (k : Nat) (f : α → α), (keysA l).Nodup →
      ∀ (v : α), lookupA l k = some v → f v = v → mapAtKey l k f = l := by
  intro l k f hnd v hv hf
  induction l with
  | nil => rfl
  | cons e t ih =>
    obtain ⟨k1, w⟩ := e
    simp only [keysA, List.map_cons, List.nodup_cons] at hnd
    by_cases hk : k1 = k
    · subst hk
      simp [lookupA] at hv
      subst hv
      simp [mapAtKey, hf, mapAtKey_not_mem t k1 f hnd.1]
    · simp only [lookupA, if_neg hk] at hv
      simp only [mapAtKey, if_neg hk]
      rw [ih hnd.2 hv]

theorem isEmpty_mapAtKey {α : Type} (l : List (Nat × α)) (k : Nat) (f : α → α) :
    (mapAtKey l k f).isEmpty = l.isEmpty := by
  cases l with
  | nil => rfl
  | cons e t =>
    obtain ⟨k1, v⟩ := e
    by_cases hk : k1 = k <;> simp [mapAtKey, hk]

theorem sortedKeysB_nodup {α : Type} :
    ∀ (l : List (Nat × α)), sortedKeysB l = true → (keysA l).Nodup := by
  intro l h
  have hch : List.Chain' (· < ·) (keysA l) := by
    induction l with
    | nil => simp [keysA]
    | cons e t ih =>
      cases t with
      | nil => simp [keysA]
      | cons e2 t2 =>
        simp only [sortedKeysB, Bool.and_eq_true, decide_eq_true_eq] at h
        have := ih h.2
        simp only [keysA, List.map_cons, List.chain'_cons] at this ⊢
        exact ⟨h.1, this⟩
  exact (List.chain'_iff_pairwise.mp hch).imp Nat.ne_of_lt

/-! ### Lemmas about the owner search -/

theorem findOwner_some_spec :
    ∀ (l : List (Nat × PlotData)) (v : Nat) (k : Nat) (r : PlotData) (cid : Nat),
      findOwner l v = some (k, r, cid) →
      lookupA r.variableCurves v = some cid ∧ (k, r) ∈ l := by
  intro l v k r cid h
  induction l with
  | nil => simp [findOwner] at h
  | cons e t ih =>
    obtain ⟨k1, r1⟩ := e
    simp only [findOwner] at h
    cases hl : lookupA r1.variableCurves v with
    | some c2 =>
      rw [hl] at h
      simp only [Option.some.injEq, Prod.mk.injEq] at h
      obtain ⟨h1, h2, h3⟩ := h
      subst h1; subst h2; subst h3
      exact ⟨hl, List.mem_cons_self _ _⟩
    | none =>
      rw [hl] at h
      obtain ⟨h1, h2⟩ := ih h
      exact ⟨h1, List.mem_cons_of_mem _ h2⟩

theorem findOwner_none_iff :
    ∀ (l : List (Nat × PlotData)) (v : Nat),
      findOwner l v = none ↔ ∀ e ∈ l, lookupA e.2.variableCurves v = none := by
  intro l v
  induction l with
  | nil => simp [findOwner]
  | cons e t ih =>
    obtain ⟨k1, r1⟩ := e
    simp only [findOwner]
    cases hl : lookupA r1.variableCurves v with
    | some c2 => simp [hl]
    | none => simp [hl, ih]

theorem findOwner_of_disjoint :
    ∀ (l : List (Nat × PlotData)) (v : Nat) (k : Nat) (r : PlotData) (cid : Nat),
      varsDisjointB l = true → (k, r) ∈ l → lookupA r.variableCurves v = some cid →
      findOwner l v = some (k, r, cid) := by
  intro l v k r cid hd hm hv
  induction l with
  | nil => simp at hm
  | cons e t ih =>
    obtain ⟨k1, r1⟩ := e
    simp only [varsDisjointB, Bool.and_eq_true, List.all_eq_true] at hd
    rcases List.mem_cons.mp hm with he | ht
    · rw [← he]
      simp only [findOwner]
      rw [hv]
    · have h1 : lookupA r1.variableCurves v = none := by
        cases hl : lookupA r1.variableCurves v with
        | none => rfl
        | some c2 =>
          exfalso
          have hmem : (v, c2) ∈ r1.variableCurves := lookupA_some_mem _ _ _ hl
          have := hd.1 (v, c2) hmem (k, r) ht
          simp only [Option.isNone_iff_eq_none] at this
          rw [this] at hv
          exact Option.noConfusion hv
      simp only [findOwner, h1]
      exact ih hd.2 ht

theorem lookupA_of_mem_nodup {α : Type} :
    ∀ (l : List (Nat × α)) (k : Nat) (v : α), (keysA l).Nodup → (k, v) ∈ l →
      lookupA l k = some v := by
  intro l k v hnd hm
  induction l with
  | nil => simp at hm
  | cons e t ih =>
    obtain ⟨k1, w⟩ := e
    simp only [keysA, List.map_cons, List.nodup_cons] at hnd
    rcases List.mem_cons.mp hm with he | ht
    · obtain ⟨h1, h2⟩ := Prod.mk.injEq .. ▸ he
      subst h1; subst h2
      simp [lookupA]
    · have hk : k1 ≠ k := by
        intro hk
        subst hk
        exact hnd.1 (List.mem_map.mpr ⟨(k1, v), ht, rfl⟩)
      simp only [lookupA, if_neg hk]
      exact ih hnd.2 ht

theorem mem_mapAtKey_cases {α : Type} :
    ∀ (l : List (Nat × α)) (k : Nat) (f : α → α) (e : Nat × α),
      e ∈ mapAtKey l k f →
      (∃ v, (k, v) ∈ l ∧ e = (k, f v)) ∨ (e ∈ l ∧ e.1 ≠ k) := by
  intro l k f e h
  induction l with
  | nil => simp [mapAtKey] at h
  | cons e0 t ih =>
    obtain ⟨k1, v⟩ := e0
    by_cases hk : k1 = k
    · subst hk
      simp only [mapAtKey, if_pos rfl] at h
      rcases List.mem_cons.mp h with he | ht
      · exact Or.inl ⟨v, List.mem_cons_self _ _, he⟩
      · rcases ih ht with ⟨w, hw, he2⟩ | ⟨hm, hne⟩
        · exact Or.inl ⟨w, List.mem_cons_of_mem _ hw, he2⟩
        · exact Or.inr ⟨List.mem_cons_of_mem _ hm, hne⟩
    · simp only [mapAtKey, if_neg hk] at h
      rcases List.mem_cons.mp h with he | ht
      · subst he
        exact Or.inr ⟨List.mem_cons_self _ _, hk⟩
      · rcases ih ht with ⟨w, hw, he2⟩ | ⟨hm, hne⟩
        · exact Or.inl ⟨w, List.mem_cons_of_mem _ hw, he2⟩
        · exact Or.inr ⟨List.mem_cons_of_mem _ hm, hne⟩

/-- If the record under key `k` owns `v`, no record surviving
`eraseA _ k` owns `v` (unique ownership). -/
theorem disjoint_eraseA_none :
    ∀ (l : List (Nat × PlotData)) (k : Nat) (r : PlotData) (v cid : Nat),
      varsDisjointB l = true → (keysA l).Nodup →
      lookupA l k = some r → lookupA r.variableCurves v = some cid →
      ∀ e ∈ eraseA l k, lookupA e.2.variableCurves v = none := by
  intro l k r v cid hd hnd hk hv e he
  induction l with
  | nil => simp [eraseA] at he
  | cons e0 t ih =>
    obtain ⟨k1, r1⟩ := e0
    simp only [varsDisjointB, Bool.and_eq_true, List.all_eq_true] at hd
    simp only [keysA, List.map_cons, List.nodup_cons] at hnd
    by_cases hkk : k1 = k
    · subst hkk
      simp [lookupA] at hk
      subst hk
      rw [eraseA_cons_self] at he
      have := hd.1 (v, cid) (lookupA_some_mem _ _ _ hv) e he
      simpa using this
    · simp only [lookupA, if_neg hkk] at hk
      simp only [eraseA, if_neg hkk] at he
      rcases List.mem_cons.mp he with he1 | he2
      · subst he1
        cases hl : lookupA r1.variableCurves v with
        | none => rfl
        | some c2 =>
          exfalso
          have hmem : (v, c2) ∈ r1.variableCurves := lookupA_some_mem _ _ _ hl
          have hkr : (k, r) ∈ t := lookupA_some_mem _ _ _ hk
          have := hd.1 (v, c2) hmem (k, r) hkr
          simp only [Option.isNone_iff_eq_none] at this
          rw [this] at hv
          exact Option.noConfusion hv
      · exact ih hd.2 hnd.2 hk he2

/-! ### Characterizations of the `RemoveVariable` overloads -/

theorem removeVariableInPlot_absent (id pid : Nat) (c : Canvas)
    (h : lookupA c.plotData pid = none) : RemoveVariableInPlot id pid c = c := by
  unfold RemoveVariableInPlot
  rw [h]

theorem removeVariableInPlot_no_var (id pid : Nat) (c : Canvas) (r : PlotData)
    (h : lookupA c.plotData pid = some r) (hv : lookupA r.variableCurves id = none) :
    RemoveVariableInPlot id pid c = c := by
  unfold RemoveVariableInPlot
  simp only [h, hv]

theorem removeVariableInPlot_nonlast (id pid : Nat) (c : Canvas) (r : PlotData) (cid : Nat)
    (h : lookupA c.plotData pid = some r) (hv : lookupA r.variableCurves id = some cid)
    (hne : eraseA r.variableCurves id ≠ []) :
    RemoveVariableInPlot id pid c =
      { c with
        manager := managerRemoveAt r.plot id c.manager,
        plotData := mapAtKey c.plotData pid
          (fun r2 =>
            { r2 with
              variableCurves := eraseA r2.variableCurves id,
              plot := eraseA r2.plot cid }),
        pills := eraseA c.pills id } := by
  have hnil : c.plotData ≠ [] := lookupA_ne_nil _ _ _ h
  have he : (eraseA r.variableCurves id).isEmpty = false := by
    cases hE : eraseA r.variableCurves id with
    | nil => exact absurd hE hne
    | cons a t => rfl
  have he2 : (mapAtKey c.plotData pid
      (fun r2 : PlotData =>
        { r2 with
          variableCurves := eraseA r2.variableCurves id,
          plot := eraseA r2.plot cid })).isEmpty = false := by
    rw [isEmpty_mapAtKey]
    cases hE : c.plotData with
    | nil => exact absurd hE hnil
    | cons a t => rfl
  unfold RemoveVariableInPlot
  simp only [h, hv, he, he2, Bool.false_eq_true, if_false]

theorem removeVariableInPlot_last (id pid : Nat) (c : Canvas) (r : PlotData) (cid : Nat)
    (h : lookupA c.plotData pid = some r) (hv : lookupA r.variableCurves id = some cid)
    (he : eraseA r.variableCurves id = []) :
    RemoveVariableInPlot id pid c =
      { c with
        manager := managerRemoveAt r.plot id c.manager,
        layout := eraseNatFirst c.layout pid,
        plotData := eraseA c.plotData pid,
        emptyPlotVisible :=
          if (eraseA c.plotData pid).isEmpty then true else c.emptyPlotVisible,
        pills := eraseA c.pills id } := by
  unfold RemoveVariableInPlot
  simp only [h, hv, he, List.isEmpty_nil, if_true]
  by_cases hE : (eraseA c.plotData pid).isEmpty <;> simp [hE]

theorem removeVariable_none_of_inv (id : Nat) (c : Canvas)
    (h : findOwner c.plotData id = none)
    (hiv : c.plotData = [] → c.emptyPlotVisible = true) :
    RemoveVariable id c = c := by
  unfold RemoveVariable
  rw [h]
  cases hE : c.plotData with
  | nil =>
    have hv := hiv hE
    simp only [hE, List.isEmpty_nil, if_true]
    cases c
    simp only at hv hE
    subst hv
    subst hE
    rfl
  | cons a t => simp [hE]

theorem removeVariable_nonlast (id : Nat) (c : Canvas) (k : Nat) (r : PlotData) (cid : Nat)
    (h : findOwner c.plotData id = some (k, r, cid))
    (hne : eraseA r.variableCurves id ≠ []) :
    RemoveVariable id c =
      { c with
        plotData := mapAtKey c.plotData k
          (fun r2 =>
            { r2 with
              variableCurves := eraseA r2.variableCurves id,
              plot := eraseA r2.plot cid }) } := by
  have hnil : c.plotData ≠ [] := by
    intro hE
    rw [hE] at h
    simp [findOwner] at h
  have he : (eraseA r.variableCurves id).isEmpty = false := by
    cases hE : eraseA r.variableCurves id with
    | nil => exact absurd hE hne
    | cons a t => rfl
  have he2 : (mapAtKey c.plotData k
      (fun r2 : PlotData =>
        { r2 with
          variableCurves := eraseA r2.variableCurves id,
          plot := eraseA r2.plot cid })).isEmpty = false := by
    rw [isEmpty_mapAtKey]
    cases hE : c.plotData with
    | nil => exact absurd hE hnil
    | cons a t => rfl
  unfold RemoveVariable
  simp only [h, he, he2, Bool.false_eq_true, if_false]

theorem removeVariable_last (id : Nat) (c : Canvas) (k : Nat) (r : PlotData) (cid : Nat)
    (h : findOwner c.plotData id = some (k, r, cid))
    (he : eraseA r.variableCurves id = []) :
    RemoveVariable id c =
      { c with
        manager := managerRemoveAt r.plot id c.manager,
        pills := eraseA c.pills id,
        layout := eraseNatFirst c.layout k,
        plotData := eraseA c.plotData k,
        emptyPlotVisible :=
          if (eraseA c.plotData k).isEmpty then true else c.emptyPlotVisible } := by
  unfold RemoveVariable
  simp only [h, he, List.isEmpty_nil, if_true]
  by_cases hE : (eraseA c.plotData k).isEmpty <;> simp [hE]

theorem mem_lookupA_isSome {α : Type} :
    ∀ (l : List (Nat × α)) (k : Nat) (v : α), (k, v) ∈ l → (lookupA l k).isSome := by
  intro l k v h
  induction l with
  | nil => simp at h
  | cons e t ih =>
    obtain ⟨k1, w⟩ := e
    rcases List.mem_cons.mp h with he | ht
    · obtain ⟨h1, h2⟩ := Prod.mk.injEq .. ▸ he
      subst h1
      simp [lookupA]
    · by_cases hk : k1 = k
      · simp [lookupA, hk]
      · simp only [lookupA, if_neg hk]
        exact ih ht

/-- Unique ownership: when the record under key `k` owns `v`, no record
under a different key owns `v`. -/
theorem disjoint_unique_owner :
    ∀ (l : List (Nat × PlotData)) (k : Nat) (r : PlotData) (v cid : Nat),
      varsDisjointB l = true → (keysA l).Nodup →
      lookupA l k = some r → lookupA r.variableCurves v = some cid →
      ∀ e ∈ l, e.1 ≠ k → lookupA e.2.variableCurves v = none := by
  intro l k r v cid hd hnd hk hv e he hne
  induction l with
  | nil => simp at he
  | cons e0 t ih =>
    obtain ⟨k1, r1⟩ := e0
    simp only [varsDisjointB, Bool.and_eq_true, List.all_eq_true] at hd
    simp only [keysA, List.map_cons, List.nodup_cons] at hnd
    by_cases hkk : k1 = k
    · subst hkk
      simp [lookupA] at hk
      subst hk
      rcases List.mem_cons.mp he with he1 | he2
      · exact absurd (congrArg Prod.fst he1) hne
      · have := hd.1 (v, cid) (lookupA_some_mem _ _ _ hv) e he2
        simpa using this
    · simp only [lookupA, if_neg hkk] at hk
      rcases List.mem_cons.mp he with he1 | he2
      · subst he1
        cases hl : lookupA r1.variableCurves v with
        | none => rfl
        | some c2 =>
          exfalso
          have hkr : (k, r) ∈ t := lookupA_some_mem _ _ _ hk
          have := hd.1 (v, c2) (lookupA_some_mem _ _ _ hl) (k, r) hkr
          simp only [Option.isNone_iff_eq_none] at this
          rw [this] at hv
          exact Option.noConfusion hv
      · exact ih hd.2 hnd.2 hk he2

theorem removeVariable_none_char (id : Nat) (c : Canvas)
    (h : findOwner c.plotData id = none) :
    RemoveVariable id c =
      if c.plotData.isEmpty then { c with emptyPlotVisible := true } else c := by
  unfold RemoveVariable
  simp only [h]

theorem removePlot_absent (pid : Nat) (c : Canvas)
    (h : lookupA c.plotData pid = none) : RemovePlot pid c = c := by
  unfold RemovePlot
  simp only [h]

theorem removePlot_empty_rec (pid : Nat) (c : Canvas) (r : PlotData)
    (h : lookupA c.plotData pid = some r) (he : r.variableCurves = []) :
    RemovePlot pid c =
      { c with
        layout := eraseNatFirst c.layout pid,
        plotData := eraseA c.plotData pid } := by
  unfold RemovePlot
  simp only [h, he, List.isEmpty_nil, if_true]

/-- The removal loop of `RemovePlot` shrinks the addressed record to a
single variable entry, leaving every other component of the canvas (in
particular the placeholder visibility) unchanged. -/
theorem removeVarsLoop_spec :
    ∀ (fuel pid : Nat) (c : Canvas) (r : PlotData),
      (keysA c.plotData).Nodup → lookupA c.plotData pid = some r →
      r.variableCurves ≠ [] → r.variableCurves.length ≤ fuel + 1 →
      ∃ r2 : PlotData,
        (removeVarsLoop fuel pid c).plotData = mapAtKey c.plotData pid (fun _ => r2) ∧
        r2.variableCurves.length = 1 ∧
        (removeVarsLoop fuel pid c).emptyPlotVisible = c.emptyPlotVisible := by
  intro fuel
  induction fuel with
  | zero =>
    intro pid c r hnd h hne hlen
    have hpos : 0 < r.variableCurves.length := List.length_pos.mpr hne
    refine ⟨r, ?_, by omega, rfl⟩
    exact (mapAtKey_eq_self_of c.plotData pid _ hnd r h rfl).symm
  | succ n ih =>
    intro pid c r hnd h hne hlen
    unfold removeVarsLoop
    simp only [h]
    by_cases hgt : r.variableCurves.length > 1
    · obtain ⟨k0, cid0, tl0, hvc⟩ :
          ∃ k0 cid0 tl0, r.variableCurves = (k0, cid0) :: tl0 := by
        cases hE : r.variableCurves with
        | nil => exact absurd hE hne
        | cons e0 tl0 => exact ⟨e0.1, e0.2, tl0, rfl⟩
      have hv0 : lookupA r.variableCurves k0 = some cid0 := by
        rw [hvc]; simp [lookupA]
      have her : eraseA r.variableCurves k0 = tl0 := by
        rw [hvc]; exact eraseA_cons_self _ _ _
      have htl : tl0 ≠ [] := by
        intro hE
        rw [hvc, hE] at hgt
        simp at hgt
      have hch := removeVariableInPlot_nonlast k0 pid c r cid0 h hv0 (her ▸ htl)
      rw [if_pos hgt]
      simp only [hvc]
      set g : PlotData → PlotData := fun r2 =>
        { r2 with
          variableCurves := eraseA r2.variableCurves k0,
          plot := eraseA r2.plot cid0 } with hg
      have hpd : (RemoveVariableInPlot k0 pid c).plotData = mapAtKey c.plotData pid g := by
        rw [hch]
      have hvis : (RemoveVariableInPlot k0 pid c).emptyPlotVisible = c.emptyPlotVisible := by
        rw [hch]
      have hnd2 : (keysA (RemoveVariableInPlot k0 pid c).plotData).Nodup := by
        rw [hpd, keysA_mapAtKey]; exact hnd
      have hlk2 : lookupA (RemoveVariableInPlot k0 pid c).plotData pid = some (g r) := by
        rw [hpd, lookupA_mapAtKey_self, h]; rfl
      have hne2 : (g r).variableCurves ≠ [] := by
        show eraseA r.variableCurves k0 ≠ []
        rw [her]; exact htl
      have hlen2 : (g r).variableCurves.length ≤ n + 1 := by
        show (eraseA r.variableCurves k0).length ≤ n + 1
        rw [her]
        rw [hvc] at hlen
        simp only [List.length_cons] at hlen
        omega
      obtain ⟨r2, hpd2, hl1, hvis2⟩ :=
        ih pid (RemoveVariableInPlot k0 pid c) (g r) hnd2 hlk2 hne2 hlen2
      refine ⟨r2, ?_, hl1, ?_⟩
      · rw [hpd2, hpd, mapAtKey_comp]
      · rw [hvis2, hvis]
    · rw [if_neg hgt]
      have hpos : 0 < r.variableCurves.length := List.length_pos.mpr hne
      refine ⟨r, ?_, by omega, rfl⟩
      exact (mapAtKey_eq_self_of c.plotData pid _ hnd r h rfl).symm

/-- `RemovePlot` on an existing record with variables: the record is
removed and the placeholder is shown exactly when no records remain. -/
theorem removePlot_nonempty_rec (pid : Nat) (c : Canvas) (r : PlotData)
    (hnd : (keysA c.plotData).Nodup) (h : lookupA c.plotData pid = some r)
    (hne : r.variableCurves ≠ []) :
    (RemovePlot pid c).plotData = eraseA c.plotData pid ∧
    (RemovePlot pid c).emptyPlotVisible =
      (if (eraseA c.plotData pid).isEmpty then true else c.emptyPlotVisible) := by
  have hEr : r.variableCurves.isEmpty = false := by
    cases hE : r.variableCurves with
    | nil => exact absurd hE hne
    | cons a t => rfl
  unfold RemovePlot
  simp only [h, hEr, Bool.false_eq_true, if_false]
  obtain ⟨r2, hpd, hl1, hvis⟩ :=
    removeVarsLoop_spec r.variableCurves.length pid c r hnd h hne (by omega)
  have hlk : lookupA (removeVarsLoop r.variableCurves.length pid c).plotData pid =
      some r2 := by
    rw [hpd, lookupA_mapAtKey_self, h]; rfl
  simp only [hlk]
  obtain ⟨k0, cid0, hvc⟩ : ∃ k0 cid0, r2.variableCurves = [(k0, cid0)] := by
    cases hE : r2.variableCurves with
    | nil => rw [hE] at hl1; simp at hl1
    | cons e0 t0 =>
      cases hT : t0 with
      | nil => exact ⟨e0.1, e0.2, rfl⟩
      | cons e1 t1 => rw [hE, hT] at hl1; simp at hl1
  have hv0 : lookupA r2.variableCurves k0 = some cid0 := by
    rw [hvc]; simp [lookupA]
  have her : eraseA r2.variableCurves k0 = [] := by
    rw [hvc]; exact eraseA_cons_self _ _ _
  simp only [hvc]
  rw [removeVariableInPlot_last k0 pid (removeVarsLoop r.variableCurves.length pid c)
    r2 cid0 hlk hv0 her]
  have hera : eraseA (removeVarsLoop r.variableCurves.length pid c).plotData pid =
      eraseA c.plotData pid := by
    rw [hpd]
    exact eraseA_mapAtKey_nodup c.plotData pid _ hnd
  constructor
  · exact hera
  · simp only [hera, hvis]

/-- `RemovePlot` leaves no record under the removed key. -/
theorem removePlot_lookup_none (pid : Nat) (c : Canvas) (r : PlotData)
    (hnd : (keysA c.plotData).Nodup) (h : lookupA c.plotData pid = some r) :
    lookupA (RemovePlot pid c).plotData pid = none := by
  by_cases hvc : r.variableCurves = []
  · rw [removePlot_empty_rec pid c r h hvc]
    exact lookupA_eraseA_self_nodup c.plotData pid hnd
  · rw [(removePlot_nonempty_rec pid c r hnd h hvc).1]
    exact lookupA_eraseA_self_nodup c.plotData pid hnd

/-- The `Clear` loop empties the record map and re-shows the
placeholder, given that every record still holds a variable. -/
theorem clearLoop_spec :
    ∀ (n : Nat) (c : Canvas), c.plotData.length = n →
      (keysA c.plotData).Nodup →
      (∀ e ∈ c.plotData, e.2.variableCurves ≠ []) → c.plotData ≠ [] →
      (clearLoop n c).plotData = [] ∧ (clearLoop n c).emptyPlotVisible = true := by
  intro n
  induction n with
  | zero =>
    intro c hlen hnd hrec hne
    exact absurd (List.length_eq_zero.mp hlen) hne
  | succ m ih =>
    intro c hlen hnd hrec hne
    obtain ⟨k0, r0, rest, hpd⟩ :
        ∃ k0 r0 rest, c.plotData = (k0, r0) :: rest := by
      cases hE : c.plotData with
      | nil => exact absurd hE hne
      | cons e0 rest => exact ⟨e0.1, e0.2, rest, rfl⟩
    unfold clearLoop
    simp only [hpd]
    have hlk : lookupA c.plotData k0 = some r0 := by
      rw [hpd]; simp [lookupA]
    have h0ne : r0.variableCurves ≠ [] := by
      refine hrec (k0, r0) ?_
      rw [hpd]; exact List.mem_cons_self _ _
    have her : eraseA c.plotData k0 = rest := by
      rw [hpd]; exact eraseA_cons_self _ _ _
    obtain ⟨hpd', hvis'⟩ := removePlot_nonempty_rec k0 c r0 hnd hlk h0ne
    rw [her] at hpd' hvis'
    cases hrest : rest with
    | nil =>
      rw [hrest] at hpd' hvis'
      have hloop : ∀ m2 c2, Canvas.plotData c2 = [] → clearLoop m2 c2 = c2 := by
        intro m2 c2 h2
        cases m2 with
        | zero => rfl
        | succ m3 =>
          unfold clearLoop
          rw [h2]
      rw [hloop m (RemovePlot k0 c) hpd']
      exact ⟨hpd', by rw [hvis']; rfl⟩
    | cons e1 rest1 =>
      refine ih (RemovePlot k0 c) ?_ ?_ ?_ ?_
      · rw [hpd']
        rw [hpd] at hlen
        simpa using Nat.succ_injective hlen
      · rw [hpd']
        rw [hpd] at hnd
        simp only [keysA, List.map_cons, List.nodup_cons] at hnd
        exact hnd.2
      · intro e hm
        rw [hpd'] at hm
        refine hrec e ?_
        rw [hpd]
        exact List.mem_cons_of_mem _ hm
      · rw [hpd', hrest]
        exact List.cons_ne_nil _ _

theorem wf_parts (c : Canvas) (hwf : wellFormed c) :
    sortedKeysB c.plotData = true ∧ varsDisjointB c.plotData = true ∧
      ∀ e ∈ c.plotData, sortedKeysB e.2.variableCurves = true := by
  unfold wellFormed wellFormedB at hwf
  simp only [Bool.and_eq_true, List.all_eq_true] at hwf
  obtain ⟨⟨⟨hs, hall⟩, hd⟩, hg⟩ := hwf
  refine ⟨hs, hd, ?_⟩
  intro e he
  have h2 := hall e he
  unfold recOkB at h2
  simp only [Bool.and_eq_true] at h2
  exact h2.1.1.1

/-- C5 (amended): after `Clear()` on a canvas each of whose records
holds at least one variable (with at least one record present), no Plot
Records remain and `PlotCount()` returns 1 — the placeholder becomes
visible again and is counted — rather than 0. -/
theorem clear_empties_and_counts_placeholder (c : Canvas)
    (hs : sortedKeysB c.plotData = true)
    (hrec : ∀ e ∈ c.plotData, e.2.variableCurves ≠ [])
    (hne : c.plotData ≠ []) :
    (Clear c).plotData = [] ∧ PlotCount (Clear c) = 1 := by
  have hnd := sortedKeysB_nodup _ hs
  obtain ⟨h1, h2⟩ := clearLoop_spec c.plotData.length c rfl hnd hrec hne
  refine ⟨h1, ?_⟩
  unfold Clear PlotCount
  rw [h1, h2]
  rfl

/-- Witness for C5's amended theorem at the three-plot canvas. -/
theorem clear_empties_witness :
    sortedKeysB threePlotDemo.plotData = true ∧
    (∀ e ∈ threePlotDemo.plotData, e.2.variableCurves ≠ []) ∧
    threePlotDemo.plotData ≠ [] ∧
    ((Clear threePlotDemo).plotData = [] ∧ PlotCount (Clear threePlotDemo) = 1) :=
  ⟨by decide, by decide, by decide,
    clear_empties_and_counts_placeholder threePlotDemo (by decide) (by decide) (by decide)⟩

/-- C9 (amended): on a well-formed canvas, `RemoveVariable` with an id
owned by no record is a no-op provided the placeholder is visible
whenever no records exist (otherwise the call re-shows the hidden
placeholder); `RemovePlot` with an absent id is always a no-op; and a
repeated `RemoveVariable` or `RemovePlot` with the same id has no
further effect. -/
theorem removal_noop_and_idempotent (c : Canvas) (v p : Nat) (hwf : wellFormed c) :
    ((findOwner c.plotData v = none ∧ (c.plotData = [] → c.emptyPlotVisible = true)) →
        RemoveVariable v c = c) ∧
    (lookupA c.plotData p = none → RemovePlot p c = c) ∧
    RemoveVariable v (RemoveVariable v c) = RemoveVariable v c ∧
    RemovePlot p (RemovePlot p c) = RemovePlot p c := by
  obtain ⟨hs, hd, hvs⟩ := wf_parts c hwf
  have hnd := sortedKeysB_nodup _ hs
  refine ⟨?_, ?_, ?_, ?_⟩
  · rintro ⟨h1, h2⟩
    exact removeVariable_none_of_inv v c h1 h2
  · intro h
    exact removePlot_absent p c h
  · cases hfo : findOwner c.plotData v with
    | none =>
      rw [removeVariable_none_char v c hfo]
      by_cases hE : c.plotData.isEmpty
      · rw [if_pos hE]
        refine removeVariable_none_of_inv v _ hfo ?_
        intro _
        rfl
      · rw [if_neg hE]
        refine removeVariable_none_of_inv v c hfo ?_
        intro hE2
        exfalso
        rw [hE2] at hE
        exact hE rfl
    | some x =>
      obtain ⟨k, r, cid⟩ := x
      obtain ⟨hv_lookup, hmem⟩ := findOwner_some_spec c.plotData v k r cid hfo
      have hlkp : lookupA c.plotData k = some r := lookupA_of_mem_nodup _ _ _ hnd hmem
      have hrs : sortedKeysB r.variableCurves = true := hvs (k, r) hmem
      have hrnd := sortedKeysB_nodup _ hrs
      by_cases herase : eraseA r.variableCurves v = []
      · rw [removeVariable_last v c k r cid hfo herase]
        refine removeVariable_none_of_inv v _ ?_ ?_
        · refine (findOwner_none_iff _ _).mpr ?_
          intro e he
          have hme : e ∈ c.plotData := mem_of_mem_eraseA _ _ _ he
          have hkne : e.1 ≠ k := by
            intro hEq
            have hsome := mem_lookupA_isSome (eraseA c.plotData k) e.1 e.2 he
            rw [hEq, lookupA_eraseA_self_nodup c.plotData k hnd] at hsome
            simp at hsome
          exact disjoint_unique_owner c.plotData k r v cid hd hnd hlkp hv_lookup e hme hkne
        · intro hE
          show (if (eraseA c.plotData k).isEmpty then true else c.emptyPlotVisible) = true
          rw [show eraseA c.plotData k = [] from hE]
          rfl
      · rw [removeVariable_nonlast v c k r cid hfo herase]
        refine removeVariable_none_of_inv v _ ?_ ?_
        · refine (findOwner_none_iff _ _).mpr ?_
          intro e he
          rcases mem_mapAtKey_cases c.plotData k _ e he with ⟨w, hw, hew⟩ | ⟨hm, hne2⟩
          · have hw_lookup : lookupA c.plotData k = some w :=
              lookupA_of_mem_nodup _ _ _ hnd hw
            rw [hlkp] at hw_lookup
            injection hw_lookup with hwr
            subst hwr
            rw [hew]
            show lookupA (eraseA r.variableCurves v) v = none
            exact lookupA_eraseA_self_nodup _ _ hrnd
          · exact disjoint_unique_owner c.plotData k r v cid hd hnd hlkp hv_lookup e hm hne2
        · intro hE
          exfalso
          have hl := length_mapAtKey c.plotData k
            (fun r2 : PlotData =>
              { r2 with
                variableCurves := eraseA r2.variableCurves v,
                plot := eraseA r2.plot cid })
          rw [show (mapAtKey c.plotData k
            (fun r2 : PlotData =>
              { r2 with
                variableCurves := eraseA r2.variableCurves v,
                plot := eraseA r2.plot cid })) = [] from hE] at hl
          simp only [List.length_nil] at hl
          exact lookupA_ne_nil _ _ _ hlkp (List.length_eq_zero.mp hl.symm)
  · cases hk : lookupA c.plotData p with
    | none => rw [removePlot_absent p c hk, removePlot_absent p c hk]
    | some r =>
      exact removePlot_absent p _ (removePlot_lookup_none p c r hnd hk)

/-- Witness for C9's amended theorem at the two-variable canvas with an
absent variable id 9 and absent plot id 3. -/
theorem removal_noop_witness :
    wellFormedB twoVarDemo = true ∧
    (((findOwner twoVarDemo.plotData 9 = none ∧
          (twoVarDemo.plotData = [] → twoVarDemo.emptyPlotVisible = true)) →
        RemoveVariable 9 twoVarDemo = twoVarDemo) ∧
      (lookupA twoVarDemo.plotData 3 = none → RemovePlot 3 twoVarDemo = twoVarDemo) ∧
      RemoveVariable 9 (RemoveVariable 9 twoVarDemo) = RemoveVariable 9 twoVarDemo ∧
      RemovePlot 3 (RemovePlot 3 twoVarDemo) = RemovePlot 3 twoVarDemo) :=
  ⟨by decide,
    removal_noop_and_idempotent twoVarDemo 9 3 (by decide : wellFormedB twoVarDemo = true)⟩

/-- One plot whose single frozen curve is one run old, labelled
`"v_1"`. -/
def agedDemo : Canvas :=
  { plotData := [(0, { plot := [(0, { name := "v", label := "v_1", active := false, age := 1 })],
                       variableCurves := [(10, 0)] })],
    emptyPlotVisible := false, globalPlotId := 1,
    pills := [(10, { name := "v", text := "v_1" })], nextPillId := 11,
    manager := [], layout := [0], nextCurveId := 1 }

/-- Witness for C8's theorem: a frozen curve aged to 2 gets its label
`"v_1"` rewritten to `"v_2"`. -/
theorem restartStep_age_suffix_witness :
    lookupA agedDemo.pills 10 = some { name := "v", text := "v_1" } ∧
    (1 : Nat) ≤ 1 ∧
    lookupA (restartStep (agedDemo, []) (0, 10, 0)).1.pills 10 =
      some { name := "v", text := "v_2" } :=
  ⟨by decide, by decide,
    (restartStep_age_suffix_update agedDemo [] 0 10 0
        { name := "v", text := "v_1" }
        { plot := [(0, { name := "v", label := "v_1", active := false, age := 1 })],
          variableCurves := [(10, 0)] }
        { name := "v", label := "v_1", active := false, age := 1 }
        (by decide) (by decide) (by decide) (by decide)).trans (by decide)⟩

theorem insertA_ne_nil {α : Type} (l : List (Nat × α)) (x : Nat) (v : α) :
    insertA l x v ≠ [] := by
  cases l with
  | nil => simp [insertA]
  | cons e t =>
    obtain ⟨k, w⟩ := e
    simp only [insertA]
    by_cases h1 : x < k
    · simp [if_pos h1]
    · simp only [if_neg h1]
      by_cases h2 : k = x <;> simp [h2]

theorem lookupA_none_not_mem {α : Type} (l : List (Nat × α)) (x : Nat)
    (h : lookupA l x = none) : x ∉ keysA l := by
  intro hm
  obtain ⟨e, he, hfst⟩ := List.mem_map.mp hm
  have h2 : (x, e.2) ∈ l := by rw [← hfst]; exact he
  have := mem_lookupA_isSome l x e.2 h2
  rw [h] at this
  simp at this

theorem sortedKeysB_tail {α : Type} (e : Nat × α) (t : List (Nat × α))
    (h : sortedKeysB (e :: t) = true) : sortedKeysB t = true := by
  cases t with
  | nil => rfl
  | cons e2 t2 =>
    simp only [sortedKeysB, Bool.and_eq_true] at h
    exact h.2

theorem sortedKeysB_head_lt {α : Type} :
    ∀ (e : Nat × α) (t : List (Nat × α)), sortedKeysB (e :: t) = true →
      ∀ x ∈ keysA t, e.1 < x := by
  intro e t
  induction t generalizing e with
  | nil => intro _ x hx; simp [keysA] at hx
  | cons e2 t2 ih =>
    intro h x hx
    simp only [sortedKeysB, Bool.and_eq_true, decide_eq_true_eq] at h
    rcases List.mem_cons.mp hx with hx1 | hx2
    · rw [hx1]; exact h.1
    · exact Nat.lt_trans h.1 (ih e2 h.2 x hx2)

/-- Detaching a curve and re-attaching it restores a sorted map:
`insertA (eraseA l k) k v = l` when `l` maps `k` to `v`. -/
theorem insertA_eraseA_self {α : Type} :
    ∀ (l : List (Nat × α)) (k : Nat) (v : α), sortedKeysB l = true →
      lookupA l k = some v → insertA (eraseA l k) k v = l := by
  intro l k v hs hv
  induction l with
  | nil => simp [lookupA] at hv
  | cons e t ih =>
    obtain ⟨k1, w⟩ := e
    by_cases hk : k1 = k
    · subst hk
      simp [lookupA] at hv
      subst hv
      rw [eraseA_cons_self]
      cases t with
      | nil => rfl
      | cons e2 t2 =>
        have hlt : k1 < e2.1 := by
          simpa using sortedKeysB_head_lt (k1, w) (e2 :: t2) hs e2.1
            (by simp [keysA])
        obtain ⟨k2, w2⟩ := e2
        simp only [insertA, if_pos hlt]
    · simp only [lookupA, if_neg hk] at hv
      simp only [eraseA, if_neg hk]
      have hkt : k ∈ keysA t := by
        have := lookupA_isSome_mem_keys t k (by rw [hv]; rfl)
        exact this
      have hlt : k1 < k := sortedKeysB_head_lt (k1, w) t hs k hkt
      have h1 : ¬k < k1 := by omega
      simp only [insertA, if_neg h1, if_neg hk]
      rw [ih (sortedKeysB_tail _ _ hs) hv]

theorem nodup_keysA_insertA {α : Type} :
    ∀ (l : List (Nat × α)) (x : Nat) (v : α), (keysA l).Nodup → x ∉ keysA l →
      (keysA (insertA l x v)).Nodup := by
  intro l x v hnd hx
  induction l with
  | nil => simp [insertA, keysA]
  | cons e t ih =>
    obtain ⟨k, w⟩ := e
    simp only [keysA, List.map_cons, List.nodup_cons] at hnd
    simp only [keysA, List.map_cons, List.mem_cons] at hx
    push_neg at hx
    simp only [insertA]
    by_cases h1 : x < k
    · rw [if_pos h1]
      simp only [keysA, List.map_cons, List.nodup_cons]
      refine ⟨?_, hnd.1, hnd.2⟩
      simp only [List.mem_cons]
      push_neg
      exact ⟨fun he => hx.1 he, fun hm => hx.2 hm⟩
    · rw [if_neg h1, if_neg (fun he : k = x => hx.1 he.symm)]
      simp only [keysA, List.map_cons, List.nodup_cons] at ih ⊢
      refine ⟨?_, ih hnd.2 hx.2⟩
      intro hm
      rcases hm2 : lookupA (insertA t x v) k with _ | w2
      · exact (lookupA_none_not_mem _ _ hm2)
          (by simpa [keysA] using hm)
      · have hm3 := lookupA_insertA_ne t x k v (fun he => hx.1 he.symm)
        rw [hm3] at hm2
        exact hnd.1 (lookupA_isSome_mem_keys t k (by rw [hm2]; rfl))

/-- The search loop of `OnMoveVariable`, characterized against the
plain owner searches, under unique ownership.  The accumulators carry
what was found in the consumed prefix. -/
theorem findMoveAux_go :
    ∀ (l : List (Nat × PlotData)) (v t : Nat) (so : Option Nat) (cid : Nat)
      (tg : Option Nat),
      varsDisjointB l = true →
      (so.isSome = true → ∀ e ∈ l, lookupA e.2.variableCurves v = none) →
      (tg.isSome = true → ∀ e ∈ l, lookupA e.2.variableCurves t = none) →
      ¬(so.isSome = true ∧ tg.isSome = true) →
      findMoveAux v t l so cid tg =
        ((match findOwner l v with | some x => some x.1 | none => so),
         (match findOwner l v with | some x => x.2.2 | none => cid),
         (match findOwner l t with | some x => some x.1 | none => tg)) := by
  intro l
  induction l with
  | nil =>
    intro v t so cid tg _ _ _ _
    simp [findMoveAux, findOwner]
  | cons e0 rest ih =>
    intro v t so cid tg hd hso htg hboth
    obtain ⟨k1, r1⟩ := e0
    simp only [varsDisjointB, Bool.and_eq_true, List.all_eq_true] at hd
    cases hv1 : lookupA r1.variableCurves v with
    | some c2 =>
      have hso_none : so = none := by
        cases hso2 : so with
        | none => rfl
        | some s0 =>
          have := hso (by rw [hso2]; rfl) (k1, r1) (List.mem_cons_self _ _)
          rw [this] at hv1
          exact Option.noConfusion hv1
      subst hso_none
      have hrest_v : findOwner rest v = none := by
        refine (findOwner_none_iff _ _).mpr ?_
        intro e he
        have := hd.1 (v, c2) (lookupA_some_mem _ _ _ hv1) e he
        simpa using this
      cases ht1 : lookupA r1.variableCurves t with
      | some c3 =>
        simp [findMoveAux, findOwner, hv1, ht1]
      | none =>
        cases htg2 : tg with
        | some tg0 =>
          have hrest_t : findOwner rest t = none := by
            refine (findOwner_none_iff _ _).mpr ?_
            intro e he
            exact htg (by rw [htg2]; rfl) e (List.mem_cons_of_mem _ he)
          simp [findMoveAux, findOwner, hv1, ht1, hrest_t]
        | none =>
          have harg1 : (some k1 : Option Nat).isSome = true →
              ∀ e ∈ rest, lookupA e.2.variableCurves v = none := by
            intro _ e he
            have := hd.1 (v, c2) (lookupA_some_mem _ _ _ hv1) e he
            simpa using this
          have harg2 : (none : Option Nat).isSome = true →
              ∀ e ∈ rest, lookupA e.2.variableCurves t = none := by
            intro hco
            simp at hco
          have harg3 : ¬((some k1 : Option Nat).isSome = true ∧
              (none : Option Nat).isSome = true) := by simp
          have hrec := ih v t (some k1) c2 none hd.2 harg1 harg2 harg3
          simp [findMoveAux, findOwner, hv1, ht1, hrec, hrest_v]
    | none =>
      cases ht1 : lookupA r1.variableCurves t with
      | some c3 =>
        have htg_none : tg = none := by
          cases htg2 : tg with
          | none => rfl
          | some t0 =>
            have := htg (by rw [htg2]; rfl) (k1, r1) (List.mem_cons_self _ _)
            rw [this] at ht1
            exact Option.noConfusion ht1
        subst htg_none
        have hrest_t : findOwner rest t = none := by
          refine (findOwner_none_iff _ _).mpr ?_
          intro e he
          have := hd.1 (t, c3) (lookupA_some_mem _ _ _ ht1) e he
          simpa using this
        cases hso2 : so with
        | some s0 =>
          have hrest_v : findOwner rest v = none := by
            refine (findOwner_none_iff _ _).mpr ?_
            intro e he
            exact hso (by rw [hso2]; rfl) e (List.mem_cons_of_mem _ he)
          simp [findMoveAux, findOwner, hv1, ht1, hrest_v, hrest_t]
        | none =>
          have harg1 : (none : Option Nat).isSome = true →
              ∀ e ∈ rest, lookupA e.2.variableCurves v = none := by
            intro hco
            simp at hco
          have harg2 : (some k1 : Option Nat).isSome = true →
              ∀ e ∈ rest, lookupA e.2.variableCurves t = none := by
            intro _ e he
            have := hd.1 (t, c3) (lookupA_some_mem _ _ _ ht1) e he
            simpa using this
          have harg3 : ¬((none : Option Nat).isSome = true ∧
              (some k1 : Option Nat).isSome = true) := by simp
          have hrec := ih v t none cid (some k1) hd.2 harg1 harg2 harg3
          simp [findMoveAux, findOwner, hv1, ht1, hrec, hrest_t]
      | none =>
        have hbool : (so.isSome && tg.isSome) = false := by
          cases hs2 : so.isSome with
          | false => rfl
          | true =>
            cases ht2 : tg.isSome with
            | false => rfl
            | true => exact absurd ⟨hs2, ht2⟩ hboth
        have harg1 : so.isSome = true →
            ∀ e ∈ rest, lookupA e.2.variableCurves v = none :=
          fun hs2 e he => hso hs2 e (List.mem_cons_of_mem _ he)
        have harg2 : tg.isSome = true →
            ∀ e ∈ rest, lookupA e.2.variableCurves t = none :=
          fun ht2 e he => htg ht2 e (List.mem_cons_of_mem _ he)
        have hrec := ih v t so cid tg hd.2 harg1 harg2 hboth
        simp [findMoveAux, findOwner, hv1, ht1, hbool, hrec]

/-- First-owner search resolved when ownership is unique: the record
under `k` owns `v` and no other record does. -/
theorem findOwner_of_unique :
    ∀ (l : List (Nat × PlotData)) (v k : Nat) (r : PlotData) (cid : Nat),
      lookupA l k = some r → lookupA r.variableCurves v = some cid →
      (∀ e ∈ l, e.1 ≠ k → lookupA e.2.variableCurves v = none) →
      findOwner l v = some (k, r, cid) := by
  intro l v k r cid hk hv hothers
  induction l with
  | nil => simp [lookupA] at hk
  | cons e0 t ih =>
    obtain ⟨k1, r1⟩ := e0
    by_cases hkk : k1 = k
    · subst hkk
      simp [lookupA] at hk
      subst hk
      simp only [findOwner, hv]
    · simp only [lookupA, if_neg hkk] at hk
      have h1 : lookupA r1.variableCurves v = none :=
        hothers (k1, r1) (List.mem_cons_self _ _) hkk
      simp only [findOwner, h1]
      exact ih hk (fun e he hne => hothers e (List.mem_cons_of_mem _ he) hne)

/-! ### Record-map measures -/

/-- Sum of a record measure over all records. -/
def sumBy (m : PlotData → Nat) (l : List (Nat × PlotData)) : Nat :=
  (l.map (fun e => m e.2)).sum

theorem sumBy_mapAtKey (m : PlotData → Nat) :
    ∀ (l : List (Nat × PlotData)) (k : Nat) (f : PlotData → PlotData) (r : PlotData),
      (keysA l).Nodup → lookupA l k = some r →
      sumBy m (mapAtKey l k f) + m r = sumBy m l + m (f r) := by
  intro l k f r hnd hk
  induction l with
  | nil => simp [lookupA] at hk
  | cons e0 t ih =>
    obtain ⟨k1, r1⟩ := e0
    simp only [keysA, List.map_cons, List.nodup_cons] at hnd
    by_cases hkk : k1 = k
    · subst hkk
      simp [lookupA] at hk
      subst hk
      simp only [mapAtKey, if_pos rfl]
      rw [mapAtKey_not_mem t k1 f hnd.1]
      simp [sumBy]
      omega
    · simp only [lookupA, if_neg hkk] at hk
      simp only [mapAtKey, if_neg hkk]
      have := ih hnd.2 hk
      simp only [sumBy, List.map_cons, List.sum_cons] at this ⊢
      omega

theorem sumBy_eraseA (m : PlotData → Nat) :
    ∀ (l : List (Nat × PlotData)) (k : Nat) (r : PlotData),
      (keysA l).Nodup → lookupA l k = some r →
      sumBy m (eraseA l k) + m r = sumBy m l := by
  intro l k r hnd hk
  induction l with
  | nil => simp [lookupA] at hk
  | cons e0 t ih =>
    obtain ⟨k1, r1⟩ := e0
    simp only [keysA, List.map_cons, List.nodup_cons] at hnd
    by_cases hkk : k1 = k
    · subst hkk
      simp [lookupA] at hk
      subst hk
      rw [eraseA_cons_self]
      simp [sumBy]
      omega
    · simp only [lookupA, if_neg hkk] at hk
      simp only [eraseA, if_neg hkk]
      have := ih hnd.2 hk
      simp only [sumBy, List.map_cons, List.sum_cons] at this ⊢
      omega

theorem sumBy_insertA_not_mem (m : PlotData → Nat) :
    ∀ (l : List (Nat × PlotData)) (x : Nat) (r0 : PlotData), x ∉ keysA l →
      sumBy m (insertA l x r0) = sumBy m l + m r0 := by
  intro l x r0 hx
  induction l with
  | nil => simp [insertA, sumBy]
  | cons e0 t ih =>
    obtain ⟨k1, r1⟩ := e0
    simp only [keysA, List.map_cons, List.mem_cons] at hx
    push_neg at hx
    simp only [insertA]
    by_cases h1 : x < k1
    · rw [if_pos h1]
      simp [sumBy]
      omega
    · rw [if_neg h1, if_neg (fun he : k1 = x => hx.1 he.symm)]
      simp only [sumBy, List.map_cons, List.sum_cons] at ih ⊢
      rw [ih hx.2]
      omega

/-- A measure vanishing on every record except the one under `k` sums
to that record's measure. -/
theorem sumBy_single (m : PlotData → Nat) :
    ∀ (l : List (Nat × PlotData)) (k : Nat) (r : PlotData),
      (keysA l).Nodup → lookupA l k = some r →
      (∀ e ∈ l, e.1 ≠ k → m e.2 = 0) →
      sumBy m l = m r := by
  intro l k r hnd hk hz
  induction l with
  | nil => simp [lookupA] at hk
  | cons e0 t ih =>
    obtain ⟨k1, r1⟩ := e0
    simp only [keysA, List.map_cons, List.nodup_cons] at hnd
    by_cases hkk : k1 = k
    · subst hkk
      simp [lookupA] at hk
      subst hk
      have hz2 : ∀ e ∈ t, m e.2 = 0 := by
        intro e he
        refine hz e (List.mem_cons_of_mem _ he) ?_
        intro hEq
        exact hnd.1 (hEq ▸ List.mem_map.mpr ⟨e, he, rfl⟩)
      have : (t.map (fun e => m e.2)).sum = 0 := by
        refine List.sum_eq_zero ?_
        intro x hx
        obtain ⟨e, he, hex⟩ := List.mem_map.mp hx
        rw [← hex]
        exact hz2 e he
      simp [sumBy, this]
    · simp only [lookupA, if_neg hkk] at hk
      have h1 : m r1 = 0 := hz (k1, r1) (List.mem_cons_self _ _) hkk
      simp only [sumBy, List.map_cons, List.sum_cons]
      rw [h1]
      have := ih hnd.2 hk (fun e he hne => hz e (List.mem_cons_of_mem _ he) hne)
      simp only [sumBy] at this
      omega

/-- `countKey vars v` counts the mapping entries for variable `v`. -/
def countKey (l : List (Nat × Nat)) (v : Nat) : Nat :=
  l.countP (fun p => decide (p.1 = v))

theorem countKey_not_mem (l : List (Nat × Nat)) (v : Nat) (h : v ∉ keysA l) :
    countKey l v = 0 := by
  refine List.countP_eq_zero.mpr ?_
  intro p hp
  simp only [decide_eq_true_eq]
  intro hEq
  exact h (hEq ▸ List.mem_map.mpr ⟨p, hp, rfl⟩)

theorem countKey_insertA_not_mem :
    ∀ (l : List (Nat × Nat)) (v cid : Nat), v ∉ keysA l →
      countKey (insertA l v cid) v = countKey l v + 1 := by
  intro l v cid hv
  induction l with
  | nil => simp [insertA, countKey, List.countP_cons]
  | cons e0 t ih =>
    obtain ⟨k1, c1⟩ := e0
    simp only [keysA, List.map_cons, List.mem_cons] at hv
    push_neg at hv
    simp only [insertA]
    by_cases h1 : v < k1
    · rw [if_pos h1]
      simp [countKey, List.countP_cons]
    · rw [if_neg h1, if_neg (fun he : k1 = v => hv.1 he.symm)]
      simp only [countKey, List.countP_cons] at ih ⊢
      rw [ih hv.2]
      have h2 : ¬((k1, c1).1 = v) := fun he => hv.1 he.symm
      simp [h2]

theorem countKey_one_of_mem :
    ∀ (l : List (Nat × Nat)) (v cid : Nat), (keysA l).Nodup →
      lookupA l v = some cid → countKey l v = 1 := by
  intro l v cid hnd hv
  induction l with
  | nil => simp [lookupA] at hv
  | cons e0 t ih =>
    obtain ⟨k1, c1⟩ := e0
    simp only [keysA, List.map_cons, List.nodup_cons] at hnd
    by_cases hkk : k1 = v
    · subst hkk
      have : countKey t k1 = 0 := countKey_not_mem t k1 hnd.1
      simp [countKey, List.countP_cons] at this ⊢
      exact this
    · simp only [lookupA, if_neg hkk] at hv
      have := ih hnd.2 hv
      simp only [countKey, List.countP_cons] at this ⊢
      simp [hkk, this]

theorem entriesFor_eq_sumBy (c : Canvas) (v : Nat) :
    entriesFor c v = sumBy (fun r => countKey r.variableCurves v) c.plotData := rfl

theorem sumVars_eq_sumBy (c : Canvas) :
    sumVars c = sumBy (fun r => r.variableCurves.length) c.plotData := rfl

theorem wf_full (c : Canvas) (hwf : wellFormed c) :
    sortedKeysB c.plotData = true ∧ varsDisjointB c.plotData = true ∧
    (∀ e ∈ c.plotData, sortedKeysB e.2.variableCurves = true) ∧
    (∀ e ∈ c.plotData, sortedKeysB e.2.plot = true) ∧
    (∀ e ∈ c.plotData, ∀ p ∈ e.2.variableCurves,
      (lookupA e.2.plot p.2).isSome = true) ∧
    (∀ e ∈ c.plotData, e.1 < c.globalPlotId) ∧
    c.globalPlotId < 4294967295 := by
  unfold wellFormed wellFormedB at hwf
  simp only [Bool.and_eq_true, List.all_eq_true] at hwf
  obtain ⟨⟨⟨hs, hall⟩, hd⟩, hg⟩ := hwf
  refine ⟨hs, hd, ?_, ?_, ?_, ?_, by simpa using hg⟩
  · intro e he
    have h2 := hall e he
    unfold recOkB at h2
    simp only [Bool.and_eq_true] at h2
    exact h2.1.1.1
  · intro e he
    have h2 := hall e he
    unfold recOkB at h2
    simp only [Bool.and_eq_true] at h2
    exact h2.1.1.2
  · intro e he p hp
    have h2 := hall e he
    unfold recOkB at h2
    simp only [Bool.and_eq_true, List.all_eq_true] at h2
    exact h2.1.2 p hp
  · intro e he
    have h2 := hall e he
    unfold recOkB at h2
    simp only [Bool.and_eq_true, decide_eq_true_eq] at h2
    exact h2.2

theorem canvas_ext (a b : Canvas)
    (h1 : a.plotData = b.plotData) (h2 : a.emptyPlotVisible = b.emptyPlotVisible)
    (h3 : a.globalPlotId = b.globalPlotId) (h4 : a.pills = b.pills)
    (h5 : a.nextPillId = b.nextPillId) (h6 : a.manager = b.manager)
    (h7 : a.layout = b.layout) (h8 : a.nextCurveId = b.nextCurveId) : a = b := by
  cases a
  cases b
  simp only at h1 h2 h3 h4 h5 h6 h7 h8
  subst h1; subst h2; subst h3; subst h4; subst h5; subst h6; subst h7; subst h8
  rfl

/-- The state produced by a successful `OnMoveVariable` once the search
results are resolved: detach-and-erase at the source record `k`,
attach-and-insert at the target (`tko`, or a fresh plot when `none`),
then delete the source record if the move emptied it. -/
def movePost (c : Canvas) (v k cidv : Nat) (cu : CurveData) (tko : Option Nat) : Canvas :=
  let c1 :=
    { c with
      plotData := mapAtKey c.plotData k
        (fun r =>
          { r with
            plot := eraseA r.plot cidv,
            variableCurves := eraseA r.variableCurves v }) }
  let c2 :=
    match tko with
    | some tk =>
      { c1 with
        plotData := mapAtKey c1.plotData tk
          (fun r =>
            { r with
              plot := insertA r.plot cidv cu,
              variableCurves := insertA r.variableCurves v cidv }) }
    | none =>
      let pc := AddPlot c1
      let c2a :=
        { pc.2 with
          plotData := mapAtKey pc.2.plotData pc.1
            (fun r =>
              { r with
                plot := insertA r.plot cidv cu,
                variableCurves := insertA r.variableCurves v cidv }) }
      if c2a.plotData.isEmpty then c2a else { c2a with emptyPlotVisible := false }
  match lookupA c2.plotData k with
  | some r2 =>
    if r2.variableCurves.isEmpty then
      { c2 with
        layout := eraseNatFirst c2.layout k,
        plotData := eraseA c2.plotData k }
    else c2
  | none => c2

/-- Under unique ownership, a move of an owned variable is `movePost`
at the owner's key, curve and the target-owner key. -/
theorem onMoveVariable_eq_movePost (c : Canvas) (v t k : Nat) (r : PlotData)
    (cidv : Nat) (cu : CurveData)
    (hd : varsDisjointB c.plotData = true)
    (hfo : findOwner c.plotData v = some (k, r, cidv))
    (hk : lookupA c.plotData k = some r)
    (hcu : lookupA r.plot cidv = some cu) :
    OnMoveVariable v t c =
      movePost c v k cidv cu
        (match findOwner c.plotData t with
          | some x => some x.1
          | none => none) := by
  have hfound := findMoveAux_go c.plotData v t none 0 none hd
    (by simp) (by simp) (by simp)
  unfold OnMoveVariable movePost
  simp only [hfound, hfo, hk, hcu]

/-- C10: moving a variable onto a target variable of the same Plot
Record leaves the canvas unchanged: the curve is detached and
re-attached to the same plot and the erased mapping entry is
re-inserted with the same curve id. -/
theorem onMoveVariable_same_plot_noop (c : Canvas) (v t k : Nat) (r : PlotData)
    (cidv cidt : Nat) (hwf : wellFormed c)
    (hk : lookupA c.plotData k = some r)
    (hv : lookupA r.variableCurves v = some cidv)
    (ht : lookupA r.variableCurves t = some cidt)
    (hvt : v ≠ t) :
    OnMoveVariable v t c = c := by
  obtain ⟨hs, hd, hvsort, hpsort, hcur, hctr, hgmax⟩ := wf_full c hwf
  have hnd := sortedKeysB_nodup _ hs
  have hmem : (k, r) ∈ c.plotData := lookupA_some_mem _ _ _ hk
  have hfo_v : findOwner c.plotData v = some (k, r, cidv) :=
    findOwner_of_disjoint _ _ _ _ _ hd hmem hv
  have hfo_t : findOwner c.plotData t = some (k, r, cidt) :=
    findOwner_of_disjoint _ _ _ _ _ hd hmem ht
  have hcuS : (lookupA r.plot cidv).isSome :=
    hcur (k, r) hmem (v, cidv) (lookupA_some_mem _ _ _ hv)
  obtain ⟨cu, hcu⟩ := Option.isSome_iff_exists.mp hcuS
  rw [onMoveVariable_eq_movePost c v t k r cidv cu hd hfo_v hk hcu]
  have hid :
      (fun r2 : PlotData =>
        { r2 with
          plot := insertA r2.plot cidv cu,
          variableCurves := insertA r2.variableCurves v cidv })
        ((fun r2 : PlotData =>
          { r2 with
            plot := eraseA r2.plot cidv,
            variableCurves := eraseA r2.variableCurves v }) r) = r := by
    show PlotData.mk (insertA (eraseA r.plot cidv) cidv cu)
        (insertA (eraseA r.variableCurves v) v cidv) = r
    rw [insertA_eraseA_self r.plot cidv cu (hpsort (k, r) hmem) hcu,
        insertA_eraseA_self r.variableCurves v cidv (hvsort (k, r) hmem) hv]
  have hpd2 :
      mapAtKey (mapAtKey c.plotData k
        (fun r2 : PlotData =>
          { r2 with
            plot := eraseA r2.plot cidv,
            variableCurves := eraseA r2.variableCurves v })) k
        (fun r2 : PlotData =>
          { r2 with
            plot := insertA r2.plot cidv cu,
            variableCurves := insertA r2.variableCurves v cidv }) = c.plotData := by
    rw [mapAtKey_comp]
    exact mapAtKey_eq_self_of _ _ _ hnd r hk hid
  have hEr : r.variableCurves.isEmpty = false := by
    cases hE : r.variableCurves with
    | nil => rw [hE] at hv; simp [lookupA] at hv
    | cons a t2 => rfl
  unfold movePost
  simp only [hfo_t, hpd2, hk, hEr, Bool.false_eq_true, if_false]

/-- Witness for C10 on the two-variable canvas. -/
theorem onMoveVariable_same_plot_witness :
    wellFormedB twoVarDemo = true ∧
    (1 : Nat) ≠ 2 ∧
    OnMoveVariable 1 2 twoVarDemo = twoVarDemo :=
  ⟨by decide, by decide,
    onMoveVariable_same_plot_noop twoVarDemo 1 2 0
      { plot := [(0, { name := "a", label := "a", active := true, age := 0 }),
                 (1, { name := "b", label := "b", active := true, age := 0 })],
        variableCurves := [(1, 0), (2, 1)] }
      0 1 (by decide : wellFormedB twoVarDemo = true) (by decide) (by decide)
      (by decide) (by decide)⟩

/-- C7: after `OnMoveVariable` moves the last variable out of a Plot
Record, that record is destroyed: `PlotByVariable` on any variable id
still present never returns the destroyed record's plot id. -/
theorem onMoveVariable_destroys_emptied_plot (c : Canvas) (v t k cidv : Nat)
    (r : PlotData) (hwf : wellFormed c)
    (hk : lookupA c.plotData k = some r)
    (hsingle : r.variableCurves = [(v, cidv)])
    (htout : lookupA r.variableCurves t = none) :
    ∀ w, (findOwner (OnMoveVariable v t c).plotData w).isSome →
      PlotByVariable (OnMoveVariable v t c) w ≠ k := by
  obtain ⟨hs, hd, hvsort, hpsort, hcur, hctr, hgmax⟩ := wf_full c hwf
  have hnd := sortedKeysB_nodup _ hs
  have hmem : (k, r) ∈ c.plotData := lookupA_some_mem _ _ _ hk
  have hv : lookupA r.variableCurves v = some cidv := by
    rw [hsingle]; simp [lookupA]
  have hfo_v : findOwner c.plotData v = some (k, r, cidv) :=
    findOwner_of_disjoint _ _ _ _ _ hd hmem hv
  have hcuS : (lookupA r.plot cidv).isSome :=
    hcur (k, r) hmem (v, cidv) (lookupA_some_mem _ _ _ hv)
  obtain ⟨cu, hcu⟩ := Option.isSome_iff_exists.mp hcuS
  have herase : eraseA r.variableCurves v = [] := by
    rw [hsingle]; exact eraseA_cons_self _ _ _
  have hkey : lookupA (OnMoveVariable v t c).plotData k = none := by
    rw [onMoveVariable_eq_movePost c v t k r cidv cu hd hfo_v hk hcu]
    cases hfo_t : findOwner c.plotData t with
    | some x =>
      obtain ⟨k2, r2, cidt⟩ := x
      obtain ⟨ht2, hmem2⟩ := findOwner_some_spec c.plotData t k2 r2 cidt hfo_t
      have hk2ne : k2 ≠ k := by
        intro hEq
        subst hEq
        have := lookupA_of_mem_nodup _ _ _ hnd hmem2
        rw [hk] at this
        injection this with hrr
        subst hrr
        rw [htout] at ht2
        exact Option.noConfusion ht2
      unfold movePost
      simp only [hfo_t]
      have hstep1 :
          lookupA (mapAtKey (mapAtKey c.plotData k
            (fun r2 : PlotData =>
              { r2 with
                plot := eraseA r2.plot cidv,
                variableCurves := eraseA r2.variableCurves v })) k2
            (fun r2 : PlotData =>
              { r2 with
                plot := insertA r2.plot cidv cu,
                variableCurves := insertA r2.variableCurves v cidv })) k =
            some { r with
              plot := eraseA r.plot cidv,
              variableCurves := eraseA r.variableCurves v } := by
        rw [lookupA_mapAtKey_ne _ _ _ _ (fun hEq : k = k2 => hk2ne hEq.symm),
          lookupA_mapAtKey_self, hk]
        rfl
      simp only [hstep1, herase, List.isEmpty_nil, if_true]
      apply lookupA_eraseA_self_nodup
      rw [keysA_mapAtKey, keysA_mapAtKey]
      exact hnd
    | none =>
      unfold movePost
      simp only [hfo_t]
      have hgnotin : c.globalPlotId ∉ keysA (mapAtKey c.plotData k
          (fun r2 : PlotData =>
            { r2 with
              plot := eraseA r2.plot cidv,
              variableCurves := eraseA r2.variableCurves v })) := by
        rw [keysA_mapAtKey]
        intro hin
        obtain ⟨e, he, hfst⟩ := List.mem_map.mp hin
        have := hctr e he
        omega
      have hkne : k ≠ c.globalPlotId := by
        have := hctr (k, r) hmem
        omega
      have hstep1 :
          lookupA (mapAtKey (insertA (mapAtKey c.plotData k
            (fun r2 : PlotData =>
              { r2 with
                plot := eraseA r2.plot cidv,
                variableCurves := eraseA r2.variableCurves v }))
            c.globalPlotId { plot := [], variableCurves := [] })
            c.globalPlotId
            (fun r2 : PlotData =>
              { r2 with
                plot := insertA r2.plot cidv cu,
                variableCurves := insertA r2.variableCurves v cidv })) k =
            some { r with
              plot := eraseA r.plot cidv,
              variableCurves := eraseA r.variableCurves v } := by
        rw [lookupA_mapAtKey_ne _ _ _ _ hkne,
          lookupA_insertA_ne _ _ _ _ hkne,
          lookupA_mapAtKey_self, hk]
        rfl
      have hndX : (keysA (mapAtKey (insertA (mapAtKey c.plotData k
          (fun r2 : PlotData =>
            { r2 with
              plot := eraseA r2.plot cidv,
              variableCurves := eraseA r2.variableCurves v }))
          c.globalPlotId { plot := [], variableCurves := [] })
          c.globalPlotId
          (fun r2 : PlotData =>
            { r2 with
              plot := insertA r2.plot cidv cu,
              variableCurves := insertA r2.variableCurves v cidv }))).Nodup := by
        rw [keysA_mapAtKey]
        refine nodup_keysA_insertA _ _ _ ?_ hgnotin
        rw [keysA_mapAtKey]
        exact hnd
      have hEne : ((mapAtKey (insertA (mapAtKey c.plotData k
          (fun r2 : PlotData =>
            { r2 with
              plot := eraseA r2.plot cidv,
              variableCurves := eraseA r2.variableCurves v }))
          c.globalPlotId { plot := [], variableCurves := [] })
          c.globalPlotId
          (fun r2 : PlotData =>
            { r2 with
              plot := insertA r2.plot cidv cu,
              variableCurves := insertA r2.variableCurves v cidv }))).isEmpty = false := by
        rw [isEmpty_mapAtKey]
        cases hE2 : insertA (mapAtKey c.plotData k
            (fun r2 : PlotData =>
              { r2 with
                plot := eraseA r2.plot cidv,
                variableCurves := eraseA r2.variableCurves v }))
            c.globalPlotId { plot := [], variableCurves := [] } with
        | nil => exact absurd hE2 (insertA_ne_nil _ _ _)
        | cons a t2 => rfl
      simp only [AddPlot, hEne, Bool.false_eq_true, if_false, hstep1, herase,
        List.isEmpty_nil, if_true]
      exact lookupA_eraseA_self_nodup _ _ hndX
  intro w hw
  cases hfw : findOwner (OnMoveVariable v t c).plotData w with
  | none => rw [hfw] at hw; simp at hw
  | some x =>
    obtain ⟨kx, rx, cidx⟩ := x
    obtain ⟨hx1, hx2⟩ := findOwner_some_spec _ _ _ _ _ hfw
    unfold PlotByVariable
    simp only [hfw]
    intro hEq
    subst hEq
    have := mem_lookupA_isSome _ _ _ hx2
    rw [hkey] at this
    simp at this

theorem mem_insertA_cases {α : Type} :
    ∀ (l : List (Nat × α)) (x : Nat) (v : α) (e : Nat × α),
      e ∈ insertA l x v → e = (x, v) ∨ e ∈ l := by
  intro l x v e h
  induction l with
  | nil => simp [insertA] at h; exact Or.inl h
  | cons e0 t ih =>
    obtain ⟨k1, w⟩ := e0
    simp only [insertA] at h
    by_cases h1 : x < k1
    · rw [if_pos h1] at h
      rcases List.mem_cons.mp h with he | ht
      · exact Or.inl he
      · exact Or.inr ht
    · rw [if_neg h1] at h
      by_cases h2 : k1 = x
      · rw [if_pos h2] at h
        rcases List.mem_cons.mp h with he | ht
        · exact Or.inl he
        · exact Or.inr (List.mem_cons_of_mem _ ht)
      · rw [if_neg h2] at h
        rcases List.mem_cons.mp h with he | ht
        · exact Or.inr (he ▸ List.mem_cons_self _ _)
        · rcases ih ht with h3 | h4
          · exact Or.inl h3
          · exact Or.inr (List.mem_cons_of_mem _ h4)

theorem countKey_eq_zero_of_lookup_none (l : List (Nat × Nat)) (v : Nat)
    (h : lookupA l v = none) : countKey l v = 0 :=
  countKey_not_mem l v (lookupA_none_not_mem l v h)

/-- C2: on a well-formed canvas, moving an owned variable removes it
from the source record and adds exactly one mapping entry for it to the
target record — the record owning the target variable, or the fresh
plot (with id `globalPlotId`) when no record owns it — and the total
number of variable-to-curve entries over all records is unchanged. -/
theorem onMoveVariable_moves_exactly_once (c : Canvas) (v t k : Nat) (r : PlotData)
    (cidv : Nat) (hwf : wellFormed c)
    (hfo : findOwner c.plotData v = some (k, r, cidv)) :
    entriesFor (OnMoveVariable v t c) v = 1 ∧
    (findOwner (OnMoveVariable v t c).plotData v).map (fun x => x.1) =
      some (match findOwner c.plotData t with
        | some x => x.1
        | none => c.globalPlotId) ∧
    sumVars (OnMoveVariable v t c) = sumVars c := by
  obtain ⟨hs, hd, hvsort, hpsort, hcur, hctr, hgmax⟩ := wf_full c hwf
  have hnd := sortedKeysB_nodup _ hs
  obtain ⟨hv, hmem⟩ := findOwner_some_spec c.plotData v k r cidv hfo
  have hk : lookupA c.plotData k = some r := lookupA_of_mem_nodup _ _ _ hnd hmem
  have hrnd := sortedKeysB_nodup _ (hvsort (k, r) hmem)
  have hcuS : (lookupA r.plot cidv).isSome :=
    hcur (k, r) hmem (v, cidv) (lookupA_some_mem _ _ _ hv)
  obtain ⟨cu, hcu⟩ := Option.isSome_iff_exists.mp hcuS
  have hvmem : v ∈ keysA r.variableCurves :=
    lookupA_isSome_mem_keys _ _ (by rw [hv]; rfl)
  have hvnotmem : v ∉ keysA (eraseA r.variableCurves v) :=
    lookupA_none_not_mem _ _ (lookupA_eraseA_self_nodup _ _ hrnd)
  have hzero : ∀ e ∈ c.plotData, e.1 ≠ k → lookupA e.2.variableCurves v = none :=
    disjoint_unique_owner c.plotData k r v cidv hd hnd hk hv
  rw [onMoveVariable_eq_movePost c v t k r cidv cu hd hfo hk hcu]
  cases hfo_t : findOwner c.plotData t with
  | some x =>
    obtain ⟨k2, r2, cidt⟩ := x
    obtain ⟨ht2, hmem2⟩ := findOwner_some_spec c.plotData t k2 r2 cidt hfo_t
    have hk2 : lookupA c.plotData k2 = some r2 := lookupA_of_mem_nodup _ _ _ hnd hmem2
    by_cases hk2k : k2 = k
    · -- same record: erase then re-insert
      subst hk2k
      have hrr : r = r2 := by
        have h3 := hk2
        rw [hk] at h3
        exact Option.some_inj.mp h3
      subst hrr
      unfold movePost
      simp only
      rw [mapAtKey_comp]
      set f2 : PlotData → PlotData := fun r3 =>
        { r3 with
          plot := insertA (eraseA r3.plot cidv) cidv cu,
          variableCurves := insertA (eraseA r3.variableCurves v) v cidv } with hf2
      have hlkX : lookupA (mapAtKey c.plotData k2 f2) k2 = some (f2 r) := by
        rw [lookupA_mapAtKey_self, hk]
        rfl
      have hvarsne : (f2 r).variableCurves.isEmpty = false := by
        show (insertA (eraseA r.variableCurves v) v cidv).isEmpty = false
        cases hE : insertA (eraseA r.variableCurves v) v cidv with
        | nil => exact absurd hE (insertA_ne_nil _ _ _)
        | cons a t2 => rfl
      simp only [hlkX, hvarsne, Bool.false_eq_true, if_false]
      have hndX : (keysA (mapAtKey c.plotData k2 f2)).Nodup := by
        rw [keysA_mapAtKey]; exact hnd
      have hzeroX : ∀ e ∈ mapAtKey c.plotData k2 f2, e.1 ≠ k2 →
          lookupA e.2.variableCurves v = none := by
        intro e he hne
        rcases mem_mapAtKey_cases _ _ _ _ he with ⟨w, hw, hew⟩ | ⟨hm, hne2⟩
        · exact absurd (congrArg Prod.fst hew) (by simpa using hne)
        · exact hzero e hm hne2
      refine ⟨?_, ?_, ?_⟩
      · show sumBy (fun r3 => countKey r3.variableCurves v)
            (mapAtKey c.plotData k2 f2) = 1
        rw [sumBy_single _ _ k2 (f2 r) hndX hlkX ?hz]
        case hz =>
          intro e he hne
          exact countKey_eq_zero_of_lookup_none _ _ (hzeroX e he hne)
        show countKey (insertA (eraseA r.variableCurves v) v cidv) v = 1
        rw [countKey_insertA_not_mem _ _ _ hvnotmem,
          countKey_not_mem _ _ hvnotmem]
      · have := findOwner_of_unique (mapAtKey c.plotData k2 f2) v k2 (f2 r) cidv
          hlkX (by
            show lookupA (insertA (eraseA r.variableCurves v) v cidv) v = some cidv
            exact lookupA_insertA_self _ _ _)
          hzeroX
        rw [this]
        rfl
      · show sumBy (fun r3 => r3.variableCurves.length) (mapAtKey c.plotData k2 f2) =
            sumBy (fun r3 => r3.variableCurves.length) c.plotData
        have hsum := sumBy_mapAtKey (fun r3 => r3.variableCurves.length)
          c.plotData k2 f2 r hnd hk
        have hlen1 : (eraseA r.variableCurves v).length + 1 =
            r.variableCurves.length := length_eraseA_mem _ _ hvmem
        have hlen2 : (insertA (eraseA r.variableCurves v) v cidv).length =
            (eraseA r.variableCurves v).length + 1 :=
          length_insertA_not_mem _ _ _ hvnotmem
        simp only at hsum
        omega
    · -- distinct records
      unfold movePost
      simp only
      set g1 : PlotData → PlotData := fun r3 =>
        { r3 with
          plot := eraseA r3.plot cidv,
          variableCurves := eraseA r3.variableCurves v } with hg1
      set g2 : PlotData → PlotData := fun r3 =>
        { r3 with
          plot := insertA r3.plot cidv cu,
          variableCurves := insertA r3.variableCurves v cidv } with hg2
      set X : List (Nat × PlotData) := mapAtKey (mapAtKey c.plotData k g1) k2 g2 with hX
      have hndX : (keysA X).Nodup := by
        rw [hX, keysA_mapAtKey, keysA_mapAtKey]; exact hnd
      have hlkXk : lookupA X k = some (g1 r) := by
        rw [hX, lookupA_mapAtKey_ne _ _ _ _ (fun hEq : k = k2 => hk2k hEq.symm),
          lookupA_mapAtKey_self, hk]
        rfl
      have hlkXk2 : lookupA X k2 = some (g2 r2) := by
        rw [hX, lookupA_mapAtKey_self,
          lookupA_mapAtKey_ne _ _ _ _ hk2k, hk2]
        rfl
      have hvnotr2 : v ∉ keysA r2.variableCurves :=
        lookupA_none_not_mem _ _ (hzero (k2, r2) hmem2 hk2k)
      have hzeroX : ∀ e ∈ X, e.1 ≠ k2 → lookupA e.2.variableCurves v = none := by
        intro e he hne
        rcases mem_mapAtKey_cases _ _ _ _ he with ⟨w, hw, hew⟩ | ⟨hm, hne2⟩
        · exact absurd (congrArg Prod.fst hew) (by simpa using hne)
        · rcases mem_mapAtKey_cases _ _ _ _ hm with ⟨w, hw, hew⟩ | ⟨hm2, hne3⟩
          · have h3 := lookupA_of_mem_nodup _ _ _ hnd hw
            rw [hk] at h3
            injection h3 with hwr
            subst hwr
            rw [hew]
            show lookupA (eraseA r.variableCurves v) v = none
            exact lookupA_eraseA_self_nodup _ _ hrnd
          · exact hzero e hm2 hne3
      have hcnt2 : countKey (g2 r2).variableCurves v = 1 := by
        show countKey (insertA r2.variableCurves v cidv) v = 1
        rw [countKey_insertA_not_mem _ _ _ hvnotr2, countKey_not_mem _ _ hvnotr2]
      have hfoX : findOwner X v = some (k2, g2 r2, cidv) :=
        findOwner_of_unique X v k2 (g2 r2) cidv hlkXk2
          (by
            show lookupA (insertA r2.variableCurves v cidv) v = some cidv
            exact lookupA_insertA_self _ _ _)
          hzeroX
      have hsumX : sumBy (fun r3 => r3.variableCurves.length) X =
          sumBy (fun r3 => r3.variableCurves.length) c.plotData := by
        have hsum1 := sumBy_mapAtKey (fun r3 => r3.variableCurves.length)
          c.plotData k g1 r hnd hk
        have hsum2 := sumBy_mapAtKey (fun r3 => r3.variableCurves.length)
          (mapAtKey c.plotData k g1) k2 g2 r2
          (by rw [keysA_mapAtKey]; exact hnd)
          (by rw [lookupA_mapAtKey_ne _ _ _ _ hk2k]; exact hk2)
        have hlen1 : (eraseA r.variableCurves v).length + 1 =
            r.variableCurves.length := length_eraseA_mem _ _ hvmem
        have hlen2 : (insertA r2.variableCurves v cidv).length =
            r2.variableCurves.length + 1 := length_insertA_not_mem _ _ _ hvnotr2
        simp only at hsum1 hsum2
        rw [hX]
        omega
      simp only [hlkXk]
      by_cases hge : (g1 r).variableCurves.isEmpty
      · rw [if_pos hge]
        have hlkE : lookupA (eraseA X k) k2 = some (g2 r2) := by
          rw [lookupA_eraseA_ne _ _ _ hk2k]
          exact hlkXk2
        have hndE : (keysA (eraseA X k)).Nodup := nodup_keysA_eraseA _ _ hndX
        refine ⟨?_, ?_, ?_⟩
        · show sumBy (fun r3 => countKey r3.variableCurves v) (eraseA X k) = 1
          rw [sumBy_single _ _ k2 (g2 r2) hndE hlkE ?hz2]
          case hz2 =>
            intro e he hne
            exact countKey_eq_zero_of_lookup_none _ _
              (hzeroX e (mem_of_mem_eraseA _ _ _ he) hne)
          exact hcnt2
        · have := findOwner_of_unique (eraseA X k) v k2 (g2 r2) cidv hlkE
            (by
              show lookupA (insertA r2.variableCurves v cidv) v = some cidv
              exact lookupA_insertA_self _ _ _)
            (fun e he hne => hzeroX e (mem_of_mem_eraseA _ _ _ he) hne)
          rw [this]
          rfl
        · show sumBy (fun r3 => r3.variableCurves.length) (eraseA X k) =
              sumBy (fun r3 => r3.variableCurves.length) c.plotData
          have hsum3 := sumBy_eraseA (fun r3 => r3.variableCurves.length)
            X k (g1 r) hndX hlkXk
          simp only at hsum3
          have hgv : (g1 r).variableCurves = eraseA r.variableCurves v := rfl
          have hglen : (eraseA r.variableCurves v).length = 0 := by
            cases hE : eraseA r.variableCurves v with
            | nil => rfl
            | cons a t2 =>
              rw [hgv, hE] at hge
              simp at hge
          omega
      · rw [if_neg hge]
        refine ⟨?_, ?_, ?_⟩
        · show sumBy (fun r3 => countKey r3.variableCurves v) X = 1
          rw [sumBy_single _ _ k2 (g2 r2) hndX hlkXk2 ?hz3]
          case hz3 =>
            intro e he hne
            exact countKey_eq_zero_of_lookup_none _ _ (hzeroX e he hne)
          exact hcnt2
        · rw [hfoX]
          rfl
        · show sumBy (fun r3 => r3.variableCurves.length) X =
              sumBy (fun r3 => r3.variableCurves.length) c.plotData
          exact hsumX
  | none =>
    unfold movePost
    simp only
    set g1 : PlotData → PlotData := fun r3 =>
      { r3 with
        plot := eraseA r3.plot cidv,
        variableCurves := eraseA r3.variableCurves v } with hg1
    set g2 : PlotData → PlotData := fun r3 =>
      { r3 with
        plot := insertA r3.plot cidv cu,
        variableCurves := insertA r3.variableCurves v cidv } with hg2
    have hgnotin : c.globalPlotId ∉ keysA (mapAtKey c.plotData k g1) := by
      rw [keysA_mapAtKey]
      intro hin
      obtain ⟨e, he, hfst⟩ := List.mem_map.mp hin
      have := hctr e he
      omega
    have hkne : k ≠ c.globalPlotId := by
      have := hctr (k, r) hmem
      omega
    set Y : List (Nat × PlotData) :=
      mapAtKey (insertA (mapAtKey c.plotData k g1) c.globalPlotId
        { plot := [], variableCurves := [] }) c.globalPlotId g2 with hY
    have hndY : (keysA Y).Nodup := by
      rw [hY, keysA_mapAtKey]
      refine nodup_keysA_insertA _ _ _ ?_ hgnotin
      rw [keysA_mapAtKey]
      exact hnd
    have hlkYg : lookupA Y c.globalPlotId =
        some (g2 { plot := [], variableCurves := [] }) := by
      rw [hY, lookupA_mapAtKey_self, lookupA_insertA_self]
      rfl
    have hlkYk : lookupA Y k = some (g1 r) := by
      rw [hY, lookupA_mapAtKey_ne _ _ _ _ hkne,
        lookupA_insertA_ne _ _ _ _ hkne,
        lookupA_mapAtKey_self, hk]
      rfl
    have hzeroY : ∀ e ∈ Y, e.1 ≠ c.globalPlotId →
        lookupA e.2.variableCurves v = none := by
      intro e he hne
      rcases mem_mapAtKey_cases _ _ _ _ he with ⟨w, hw, hew⟩ | ⟨hm, hne2⟩
      · exact absurd (congrArg Prod.fst hew) (by simpa using hne)
      · rcases mem_insertA_cases _ _ _ _ hm with he2 | hm2
        · exact absurd (congrArg Prod.fst he2) (by simpa using hne)
        · rcases mem_mapAtKey_cases _ _ _ _ hm2 with ⟨w, hw, hew⟩ | ⟨hm3, hne3⟩
          · have h3 := lookupA_of_mem_nodup _ _ _ hnd hw
            rw [hk] at h3
            injection h3 with hwr
            subst hwr
            rw [hew]
            show lookupA (eraseA r.variableCurves v) v = none
            exact lookupA_eraseA_self_nodup _ _ hrnd
          · exact hzero e hm3 hne3
    have hcntg : countKey (g2 { plot := [], variableCurves := [] }).variableCurves v
        = 1 := by
      show countKey (insertA [] v cidv) v = 1
      simp [insertA, countKey, List.countP_cons]
    have hfoY : findOwner Y v =
        some (c.globalPlotId, g2 { plot := [], variableCurves := [] }, cidv) :=
      findOwner_of_unique Y v c.globalPlotId _ cidv hlkYg
        (by
          show lookupA (insertA [] v cidv) v = some cidv
          exact lookupA_insertA_self _ _ _)
        hzeroY
    have hsumY : sumBy (fun r3 => r3.variableCurves.length) Y =
        sumBy (fun r3 => r3.variableCurves.length) c.plotData := by
      have hsum1 := sumBy_mapAtKey (fun r3 => r3.variableCurves.length)
        c.plotData k g1 r hnd hk
      have hsum2 := sumBy_insertA_not_mem (fun r3 => r3.variableCurves.length)
        (mapAtKey c.plotData k g1) c.globalPlotId
        { plot := [], variableCurves := [] } hgnotin
      have hsum3 := sumBy_mapAtKey (fun r3 => r3.variableCurves.length)
        (insertA (mapAtKey c.plotData k g1) c.globalPlotId
          { plot := [], variableCurves := [] })
        c.globalPlotId g2 { plot := [], variableCurves := [] }
        (by
          refine nodup_keysA_insertA _ _ _ ?_ hgnotin
          rw [keysA_mapAtKey]
          exact hnd)
        (lookupA_insertA_self _ _ _)
      have hlen1 : (eraseA r.variableCurves v).length + 1 =
          r.variableCurves.length := length_eraseA_mem _ _ hvmem
      simp only at hsum1 hsum2 hsum3
      rw [hY]
      have hlen2 : (insertA ([] : List (Nat × Nat)) v cidv).length = 1 := rfl
      omega
    have hEne : Y.isEmpty = false := by
      rw [hY, isEmpty_mapAtKey]
      cases hE2 : insertA (mapAtKey c.plotData k g1) c.globalPlotId
          { plot := [], variableCurves := [] } with
      | nil => exact absurd hE2 (insertA_ne_nil _ _ _)
      | cons a t2 => rfl
    simp only [AddPlot, hEne, Bool.false_eq_true, if_false, hlkYk]
    by_cases hge : (g1 r).variableCurves.isEmpty
    · rw [if_pos hge]
      have hlkE : lookupA (eraseA Y k) c.globalPlotId =
          some (g2 { plot := [], variableCurves := [] }) := by
        rw [lookupA_eraseA_ne _ _ _ (fun hEq => hkne hEq.symm)]
        exact hlkYg
      have hndE : (keysA (eraseA Y k)).Nodup := nodup_keysA_eraseA _ _ hndY
      refine ⟨?_, ?_, ?_⟩
      · show sumBy (fun r3 => countKey r3.variableCurves v) (eraseA Y k) = 1
        rw [sumBy_single _ _ c.globalPlotId _ hndE hlkE ?hz4]
        case hz4 =>
          intro e he hne
          exact countKey_eq_zero_of_lookup_none _ _
            (hzeroY e (mem_of_mem_eraseA _ _ _ he) hne)
        exact hcntg
      · have := findOwner_of_unique (eraseA Y k) v c.globalPlotId
          (g2 { plot := [], variableCurves := [] }) cidv hlkE
          (by
            show lookupA (insertA [] v cidv) v = some cidv
            exact lookupA_insertA_self _ _ _)
          (fun e he hne => hzeroY e (mem_of_mem_eraseA _ _ _ he) hne)
        rw [this]
        rfl
      · show sumBy (fun r3 => r3.variableCurves.length) (eraseA Y k) =
            sumBy (fun r3 => r3.variableCurves.length) c.plotData
        have hsum4 := sumBy_eraseA (fun r3 => r3.variableCurves.length)
          Y k (g1 r) hndY hlkYk
        simp only at hsum4
        have hgv : (g1 r).variableCurves = eraseA r.variableCurves v := rfl
        have hglen : (eraseA r.variableCurves v).length = 0 := by
          cases hE : eraseA r.variableCurves v with
          | nil => rfl
          | cons a t2 =>
            rw [hgv, hE] at hge
            simp at hge
        omega
    · rw [if_neg hge]
      refine ⟨?_, ?_, ?_⟩
      · show sumBy (fun r3 => countKey r3.variableCurves v) Y = 1
        rw [sumBy_single _ _ c.globalPlotId _ hndY hlkYg ?hz5]
        case hz5 =>
          intro e he hne
          exact countKey_eq_zero_of_lookup_none _ _ (hzeroY e he hne)
        exact hcntg
      · rw [hfoY]
        rfl
      · show sumBy (fun r3 => r3.variableCurves.length) Y =
            sumBy (fun r3 => r3.variableCurves.length) c.plotData
        exact hsumY

/-- A canvas with two plots (ids 0 and 3), each holding one variable
(slot ids 1 and 2, curve ids 0 and 1). -/
def twoPlotDemo : Canvas :=
  { plotData := [(0, { plot := [(0, { name := "a", label := "a", active := true, age := 0 })],
                       variableCurves := [(1, 0)] }),
                 (3, { plot := [(1, { name := "b", label := "b", active := true, age := 0 })],
                       variableCurves := [(2, 1)] })],
    emptyPlotVisible := false, globalPlotId := 4,
    pills := [(1, { name := "a", text := "a" }), (2, { name := "b", text := "b" })],
    nextPillId := 3, manager := [0, 1], layout := [0, 3], nextCurveId := 2 }

/-- Witness for C2 at the two-plot canvas: variable 1 moves onto
variable 2's record. -/
theorem onMoveVariable_moves_witness :
    wellFormedB twoPlotDemo = true ∧
    findOwner twoPlotDemo.plotData 1 =
      some (0, { plot := [(0, { name := "a", label := "a", active := true, age := 0 })],
                 variableCurves := [(1, 0)] }, 0) ∧
    (entriesFor (OnMoveVariable 1 2 twoPlotDemo) 1 = 1 ∧
      (findOwner (OnMoveVariable 1 2 twoPlotDemo).plotData 1).map (fun x => x.1) =
        some (match findOwner twoPlotDemo.plotData 2 with
          | some x => x.1
          | none => twoPlotDemo.globalPlotId) ∧
      sumVars (OnMoveVariable 1 2 twoPlotDemo) = sumVars twoPlotDemo) :=
  ⟨by decide, by decide,
    onMoveVariable_moves_exactly_once twoPlotDemo 1 2 0
      { plot := [(0, { name := "a", label := "a", active := true, age := 0 })],
        variableCurves := [(1, 0)] }
      0 (by decide : wellFormedB twoPlotDemo = true) (by decide)⟩

/-- Witness for C7 at the two-plot canvas: moving the only variable of
plot 0 onto plot 3 destroys plot 0, and the surviving variable 2 does
not map to it. -/
theorem onMoveVariable_destroys_witness :
    wellFormedB twoPlotDemo = true ∧
    lookupA twoPlotDemo.plotData 0 =
      some { plot := [(0, { name := "a", label := "a", active := true, age := 0 })],
             variableCurves := [(1, 0)] } ∧
    PlotByVariable (OnMoveVariable 1 2 twoPlotDemo) 2 ≠ 0 :=
  ⟨by decide, by decide,
    onMoveVariable_destroys_emptied_plot twoPlotDemo 1 2 0 0
      { plot := [(0, { name := "a", label := "a", active := true, age := 0 })],
        variableCurves := [(1, 0)] }
      (by decide : wellFormedB twoPlotDemo = true) (by decide) (by decide) (by decide)
      2 (by decide)⟩

/-- C6 (amended): the two `RemoveVariable` overloads produce identical
states exactly in the case the spec's cascade describes fully — when
the variable is the only one of its record, so the record is destroyed
either way.  (With further variables present, the specified-plot
overload additionally removes the slot-container pill and attempts a
registry unregistration, see the counterexample.) -/
theorem removeVariable_overloads_agree_on_singleton (c : Canvas) (v p cid : Nat)
    (r : PlotData) (hwf : wellFormed c)
    (hp : lookupA c.plotData p = some r)
    (hvc : r.variableCurves = [(v, cid)]) :
    RemoveVariable v c = RemoveVariableInPlot v p c := by
  obtain ⟨hs, hd, hvs⟩ := wf_parts c hwf
  have hv_lookup : lookupA r.variableCurves v = some cid := by
    rw [hvc]; simp [lookupA]
  have hmem : (p, r) ∈ c.plotData := lookupA_some_mem _ _ _ hp
  have hfo : findOwner c.plotData v = some (p, r, cid) :=
    findOwner_of_disjoint c.plotData v p r cid hd hmem hv_lookup
  have her : eraseA r.variableCurves v = [] := by
    rw [hvc]; exact eraseA_cons_self _ _ _
  rw [removeVariable_last v c p r cid hfo her,
    removeVariableInPlot_last v p c r cid hp hv_lookup her]

/-- Witness for C6's amended theorem at the singleton-record canvas. -/
theorem removeVariable_overloads_witness :
    wellFormedB mismatchDemo = true ∧
    lookupA mismatchDemo.plotData 0 =
      some { plot := [(0, { name := "x", label := "x", active := true, age := 0 })],
             variableCurves := [(5, 0)] } ∧
    RemoveVariable 5 mismatchDemo = RemoveVariableInPlot 5 0 mismatchDemo :=
  ⟨by decide, by decide,
    removeVariable_overloads_agree_on_singleton mismatchDemo 5 0 0
      { plot := [(0, { name := "x", label := "x", active := true, age := 0 })],
        variableCurves := [(5, 0)] }
      (by decide : wellFormedB mismatchDemo = true) (by decide) (by decide)⟩

theorem sortedKeysB_iff_pairwise {α : Type} :
    ∀ (l : List (Nat × α)),
      sortedKeysB l = true ↔ List.Pairwise (· < ·) (keysA l) := by
  intro l
  induction l with
  | nil => simp [sortedKeysB, keysA]
  | cons e t ih =>
    cases t with
    | nil => simp [sortedKeysB, keysA]
    | cons e2 t2 =>
      constructor
      · intro h
        have h2 := h
        simp only [sortedKeysB, Bool.and_eq_true, decide_eq_true_eq] at h2
        refine List.Pairwise.cons ?_ (ih.mp h2.2)
        intro x hx
        exact sortedKeysB_head_lt e (e2 :: t2) h x hx
      · intro h
        rcases h with - | ⟨hhead, hp⟩
        simp only [sortedKeysB, Bool.and_eq_true, decide_eq_true_eq]
        refine ⟨?_, ih.mpr hp⟩
        refine hhead e2.1 ?_
        simp [keysA]

theorem sortedKeysB_eraseA {α : Type} (l : List (Nat × α)) (k : Nat)
    (h : sortedKeysB l = true) : sortedKeysB (eraseA l k) = true := by
  rw [sortedKeysB_iff_pairwise] at h ⊢
  exact List.Pairwise.sublist ((eraseA_sublist l k).map Prod.fst) h

theorem sortedKeysB_mapAtKey {α : Type} (l : List (Nat × α)) (k : Nat) (f : α → α)
    (h : sortedKeysB l = true) : sortedKeysB (mapAtKey l k f) = true := by
  rw [sortedKeysB_iff_pairwise] at h ⊢
  rw [keysA_mapAtKey]
  exact h

theorem sortedKeysB_insertA {α : Type} :
    ∀ (l : List (Nat × α)) (x : Nat) (v : α), sortedKeysB l = true →
      sortedKeysB (insertA l x v) = true := by
  intro l
  induction l with
  | nil => intro x v _; rfl
  | cons e t ih =>
    intro x v h
    obtain ⟨k1, w⟩ := e
    simp only [insertA]
    by_cases h1 : x < k1
    · rw [if_pos h1]
      simpa [sortedKeysB, h1] using h
    · rw [if_neg h1]
      by_cases h2 : k1 = x
      · rw [if_pos h2]
        subst h2
        cases t with
        | nil => rfl
        | cons e2 t2 => simpa [sortedKeysB] using h
      · rw [if_neg h2]
        have hk1x : k1 < x := by omega
        cases t with
        | nil => simp [insertA, sortedKeysB, hk1x]
        | cons e2 t2 =>
          obtain ⟨k2, w2⟩ := e2
          have hk12 : k1 < k2 := by
            simp only [sortedKeysB, Bool.and_eq_true, decide_eq_true_eq] at h
            exact h.1
          have hrec := ih x v (sortedKeysB_tail _ _ h)
          simp only [insertA]
          by_cases h3 : x < k2
          · rw [if_pos h3]
            have htail : sortedKeysB ((k2, w2) :: t2) = true :=
              sortedKeysB_tail _ _ h
            simp [sortedKeysB, hk1x, h3, htail]
          · rw [if_neg h3]
            by_cases h4 : k2 = x
            · rw [if_pos h4]
              subst h4
              have htail : sortedKeysB ((k2, w2) :: t2) = true :=
                sortedKeysB_tail _ _ h
              cases t2 with
              | nil => simp [sortedKeysB, hk1x]
              | cons e3 t3 =>
                simp only [sortedKeysB, Bool.and_eq_true, decide_eq_true_eq] at htail ⊢
                exact ⟨hk1x, htail⟩
            · rw [if_neg h4]
              have hrec2 : sortedKeysB ((k2, w2) :: insertA t2 x v) = true := by
                have h5 := hrec
                simp only [insertA, if_neg h3, if_neg h4] at h5
                exact h5
              cases hI : insertA t2 x v with
              | nil => exact absurd hI (insertA_ne_nil _ _ _)
              | cons e4 t4 =>
                rw [hI] at hrec2
                simp only [sortedKeysB, Bool.and_eq_true, decide_eq_true_eq] at hrec2 ⊢
                exact ⟨hk12, hrec2⟩

theorem mem_keysA_lookup_isSome {α : Type} (l : List (Nat × α)) (x : Nat)
    (h : x ∈ keysA l) : (lookupA l x).isSome := by
  obtain ⟨e, he, hfst⟩ := List.mem_map.mp h
  have h2 : (x, e.2) ∈ l := by rw [← hfst]; exact he
  exact mem_lookupA_isSome l x e.2 h2

theorem ne_nil_of_lookup_isSome {α : Type} (l : List (Nat × α)) (x : Nat)
    (h : (lookupA l x).isSome) : l ≠ [] := by
  intro hE
  subst hE
  simp [lookupA] at h

/-- The invariant of the restricted-operations claim: the placeholder is
visible exactly when no records exist, no record's mapping is empty, and
the record map is sorted (the `std::map` representation invariant). -/
def invS (c : Canvas) : Prop :=
  (c.emptyPlotVisible = true ↔ c.plotData = []) ∧
  (∀ e ∈ c.plotData, e.2.variableCurves ≠ []) ∧
  sortedKeysB c.plotData = true

theorem invS_visible_false (c : Canvas) (h : invS c) (hne : c.plotData ≠ []) :
    c.emptyPlotVisible = false := by
  cases hb : c.emptyPlotVisible with
  | false => rfl
  | true => exact absurd (h.1.mp hb) hne

/-- The target component of the move-search result names a key of the
scanned list (or was already set on entry). -/
theorem findMoveAux_tg_mem :
    ∀ (l : List (Nat × PlotData)) (v t : Nat) (so : Option Nat) (cid : Nat)
      (tg : Option Nat) (tk : Nat),
      (findMoveAux v t l so cid tg).2.2 = some tk →
      tg = some tk ∨ tk ∈ keysA l := by
  intro l
  induction l with
  | nil =>
    intro v t so cid tg tk h
    exact Or.inl h
  | cons e rest ih =>
    intro v t so cid tg tk h
    obtain ⟨k1, r1⟩ := e
    simp only [findMoveAux] at h
    by_cases ht1 : (lookupA r1.variableCurves t).isSome
    · simp only [ht1, if_true] at h
      by_cases hbr : ((match lookupA r1.variableCurves v with
          | some c2 => ((some k1 : Option Nat), c2)
          | none => (so, cid)).1.isSome && (some k1 : Option Nat).isSome) = true
      · rw [if_pos hbr] at h
        simp only at h
        injection h with h2
        right
        rw [← h2]
        simp [keysA]
      · rw [if_neg hbr] at h
        rcases ih v t _ _ _ tk h with h3 | h4
        · injection h3 with h5
          right
          rw [← h5]
          simp [keysA]
        · right
          exact List.mem_cons_of_mem _ h4
    · simp only [Bool.not_eq_true] at ht1
      simp only [ht1, Bool.false_eq_true, if_false] at h
      by_cases hbr : ((match lookupA r1.variableCurves v with
          | some c2 => ((some k1 : Option Nat), c2)
          | none => (so, cid)).1.isSome && tg.isSome) = true
      · rw [if_pos hbr] at h
        simp only at h
        left
        exact h
      · rw [if_neg hbr] at h
        rcases ih v t _ _ _ tk h with h3 | h4
        · exact Or.inl h3
        · exact Or.inr (List.mem_cons_of_mem _ h4)

theorem mapAtKey_ne_nil {α : Type} (l : List (Nat × α)) (k : Nat) (f : α → α)
    (h : l ≠ []) : mapAtKey l k f ≠ [] := by
  cases l with
  | nil => exact absurd rfl h
  | cons e t =>
    obtain ⟨k1, v⟩ := e
    by_cases hk : k1 = k <;> simp [mapAtKey, hk]

theorem addVariable_absent (id : Nat) (vn : String) (pid : Nat) (c : Canvas)
    (hp : pid ≠ EMPTY_PLOT) (hlk : lookupA c.plotData pid = none) :
    AddVariable id vn pid c = c := by
  unfold AddVariable
  rw [if_neg hp]
  simp only [hlk]

theorem addVariable_present (id : Nat) (vn : String) (pid : Nat) (c : Canvas) (r : PlotData)
    (hp : pid ≠ EMPTY_PLOT) (hlk : lookupA c.plotData pid = some r) :
    AddVariable id vn pid c =
      { c with
        nextCurveId := c.nextCurveId + 1,
        plotData := mapAtKey c.plotData pid
          (fun r2 =>
            { r2 with
              plot := insertA r2.plot c.nextCurveId
                { name := vn, label := vn, active := true, age := 0 },
              variableCurves := insertA r2.variableCurves id c.nextCurveId }),
        emptyPlotVisible := false,
        manager := insertNatSorted c.manager c.nextCurveId } := by
  have hne : c.plotData ≠ [] := lookupA_ne_nil _ _ _ hlk
  have hie : (mapAtKey c.plotData pid
      (fun r2 : PlotData =>
        { r2 with
          plot := insertA r2.plot c.nextCurveId
            { name := vn, label := vn, active := true, age := 0 },
          variableCurves := insertA r2.variableCurves id c.nextCurveId })).isEmpty = false := by
    rw [isEmpty_mapAtKey]
    cases hE : c.plotData with
    | nil => exact absurd hE hne
    | cons a t => rfl
  unfold AddVariable
  rw [if_neg hp]
  simp only [hlk, hie, Bool.false_eq_true, if_false]

theorem addVariable_sentinel (id : Nat) (vn : String) (c : Canvas) :
    AddVariable id vn EMPTY_PLOT c =
      { c with
        globalPlotId := (c.globalPlotId + 1) % 4294967296,
        layout := c.layout ++ [c.globalPlotId],
        nextCurveId := c.nextCurveId + 1,
        plotData := mapAtKey
          (insertA c.plotData c.globalPlotId { plot := [], variableCurves := [] })
          c.globalPlotId
          (fun r2 =>
            { r2 with
              plot := insertA r2.plot c.nextCurveId
                { name := vn, label := vn, active := true, age := 0 },
              variableCurves := insertA r2.variableCurves id c.nextCurveId }),
        emptyPlotVisible := false,
        manager := insertNatSorted c.manager c.nextCurveId } := by
  have hlk : lookupA
      (insertA c.plotData c.globalPlotId { plot := [], variableCurves := [] })
      c.globalPlotId = some { plot := [], variableCurves := [] } :=
    lookupA_insertA_self _ _ _
  have hie : (mapAtKey
      (insertA c.plotData c.globalPlotId { plot := [], variableCurves := [] })
      c.globalPlotId
      (fun r2 : PlotData =>
        { r2 with
          plot := insertA r2.plot c.nextCurveId
            { name := vn, label := vn, active := true, age := 0 },
          variableCurves := insertA r2.variableCurves id c.nextCurveId })).isEmpty = false := by
    rw [isEmpty_mapAtKey]
    cases hI : insertA c.plotData c.globalPlotId { plot := [], variableCurves := [] } with
    | nil => exact absurd hI (insertA_ne_nil _ _ _)
    | cons a t => rfl
  unfold AddVariable
  rw [if_pos rfl]
  simp only [AddPlot, hlk, hie, Bool.false_eq_true, if_false]

theorem invS_addVariable (id : Nat) (vn : String) (pid : Nat) (c : Canvas)
    (h : invS c) : invS (AddVariable id vn pid c) := by
  obtain ⟨hiff, hrec, hs⟩ := h
  by_cases hp : pid = EMPTY_PLOT
  · subst hp
    rw [addVariable_sentinel]
    have hsI := sortedKeysB_insertA c.plotData c.globalPlotId
      { plot := [], variableCurves := [] } hs
    refine ⟨?_, ?_, ?_⟩
    · constructor
      · intro hF; exact absurd hF (by simp)
      · intro hE
        exact absurd hE (mapAtKey_ne_nil _ _ _ (insertA_ne_nil _ _ _))
    · intro e he
      rcases mem_mapAtKey_cases _ _ _ _ he with ⟨w, _, he2⟩ | ⟨hm, hne⟩
      · rw [he2]
        exact insertA_ne_nil _ _ _
      · rcases mem_insertA_cases _ _ _ _ hm with he3 | he4
        · rw [he3] at hne
          exact absurd rfl hne
        · exact hrec e he4
    · exact sortedKeysB_mapAtKey _ _ _ hsI
  · cases hlk : lookupA c.plotData pid with
    | none =>
      rw [addVariable_absent id vn pid c hp hlk]
      exact ⟨hiff, hrec, hs⟩
    | some r =>
      rw [addVariable_present id vn pid c r hp hlk]
      have hnd := sortedKeysB_nodup _ hs
      refine ⟨?_, ?_, ?_⟩
      · constructor
        · intro hF; exact absurd hF (by simp)
        · intro hE
          exact absurd hE (mapAtKey_ne_nil _ _ _ (lookupA_ne_nil _ _ _ hlk))
      · intro e he
        rcases mem_mapAtKey_cases _ _ _ _ he with ⟨w, _, he2⟩ | ⟨hm, _⟩
        · rw [he2]
          exact insertA_ne_nil _ _ _
        · exact hrec e hm
      · exact sortedKeysB_mapAtKey _ _ _ hs

theorem invS_onAddVariable (id : Nat) (vn : String) (tg : Nat) (c : Canvas)
    (h : invS c) : invS (OnAddVariable id vn tg c) := by
  unfold OnAddVariable
  by_cases ht : tg ≠ EMPTY_VARIABLE
  · rw [if_pos ht]
    cases hf : findOwner c.plotData tg with
    | none => exact h
    | some krc =>
      obtain ⟨k, r, cid⟩ := krc
      exact invS_addVariable id vn k c h
  · rw [if_neg ht]
    exact invS_addVariable id vn EMPTY_PLOT c h

theorem invS_addVariableByName (vn : String) (pid : Nat) (c : Canvas)
    (h : invS c) : invS (AddVariableByName vn pid c).2 := by
  unfold AddVariableByName
  exact invS_onAddVariable _ _ _ _ ⟨h.1, h.2.1, h.2.2⟩

theorem invS_removeVariable (id : Nat) (c : Canvas) (h : invS c) :
    invS (RemoveVariable id c) := by
  obtain ⟨hiff, hrec, hs⟩ := h
  have hnd := sortedKeysB_nodup _ hs
  cases hf : findOwner c.plotData id with
  | none =>
    rw [removeVariable_none_char id c hf]
    cases hP : c.plotData with
    | nil =>
      simp only [List.isEmpty_nil, if_true]
      refine ⟨⟨fun _ => rfl, fun _ => rfl⟩, ?_, by rfl⟩
      intro e he
      exact absurd he (List.not_mem_nil e)
    | cons a t =>
      simp only [List.isEmpty_cons, Bool.false_eq_true, if_false]
      exact ⟨hiff, hrec, hs⟩
  | some krc =>
    obtain ⟨k, r, cid⟩ := krc
    obtain ⟨hv, hm⟩ := findOwner_some_spec _ _ _ _ _ hf
    have hlkk : lookupA c.plotData k = some r := lookupA_of_mem_nodup _ _ _ hnd hm
    have hne : c.plotData ≠ [] := lookupA_ne_nil _ _ _ hlkk
    have hvis : c.emptyPlotVisible = false :=
      invS_visible_false c ⟨hiff, hrec, hs⟩ hne
    by_cases herase : eraseA r.variableCurves id = []
    · rw [removeVariable_last id c k r cid hf herase]
      refine ⟨?_, ?_, sortedKeysB_eraseA _ _ hs⟩
      · cases hE2 : eraseA c.plotData k with
        | nil => simp only [List.isEmpty_nil, if_true]
        | cons a t =>
          simp only [List.isEmpty_cons, Bool.false_eq_true, if_false]
          rw [hvis]
          simp
      · intro e he
        exact hrec e (mem_of_mem_eraseA _ _ _ he)
    · rw [removeVariable_nonlast id c k r cid hf herase]
      refine ⟨?_, ?_, sortedKeysB_mapAtKey _ _ _ hs⟩
      · constructor
        · intro hF
          have hF2 : c.emptyPlotVisible = true := hF
          rw [hvis] at hF2
          exact Bool.noConfusion hF2
        · intro hE
          exact absurd hE (mapAtKey_ne_nil _ _ _ hne)
      · intro e he
        rcases mem_mapAtKey_cases _ _ _ _ he with ⟨w, hw, he2⟩ | ⟨hm2, _⟩
        · have hww : lookupA c.plotData k = some w := lookupA_of_mem_nodup _ _ _ hnd hw
          rw [hlkk] at hww
          injection hww with hww
          subst hww
          rw [he2]
          exact herase
        · exact hrec e hm2

theorem invS_removeVariableInPlot (id pid : Nat) (c : Canvas) (h : invS c) :
    invS (RemoveVariableInPlot id pid c) := by
  obtain ⟨hiff, hrec, hs⟩ := h
  have hnd := sortedKeysB_nodup _ hs
  cases hlk : lookupA c.plotData pid with
  | none =>
    rw [removeVariableInPlot_absent id pid c hlk]
    exact ⟨hiff, hrec, hs⟩
  | some r =>
    cases hv : lookupA r.variableCurves id with
    | none =>
      rw [removeVariableInPlot_no_var id pid c r hlk hv]
      exact ⟨hiff, hrec, hs⟩
    | some cid =>
      have hne : c.plotData ≠ [] := lookupA_ne_nil _ _ _ hlk
      have hvis : c.emptyPlotVisible = false :=
        invS_visible_false c ⟨hiff, hrec, hs⟩ hne
      by_cases herase : eraseA r.variableCurves id = []
      · rw [removeVariableInPlot_last id pid c r cid hlk hv herase]
        refine ⟨?_, ?_, sortedKeysB_eraseA _ _ hs⟩
        · cases hE2 : eraseA c.plotData pid with
          | nil => simp only [List.isEmpty_nil, if_true]
          | cons a t =>
            simp only [List.isEmpty_cons, Bool.false_eq_true, if_false]
            rw [hvis]
            simp
        · intro e he
          exact hrec e (mem_of_mem_eraseA _ _ _ he)
      · rw [removeVariableInPlot_nonlast id pid c r cid hlk hv herase]
        refine ⟨?_, ?_, sortedKeysB_mapAtKey _ _ _ hs⟩
        · constructor
          · intro hF
            have hF2 : c.emptyPlotVisible = true := hF
            rw [hvis] at hF2
            exact Bool.noConfusion hF2
          · intro hE
            exact absurd hE (mapAtKey_ne_nil _ _ _ hne)
        · intro e he
          rcases mem_mapAtKey_cases _ _ _ _ he with ⟨w, hw, he2⟩ | ⟨hm2, _⟩
          · have hww : lookupA c.plotData pid = some w :=
              lookupA_of_mem_nodup _ _ _ hnd hw
            rw [hlk] at hww
            injection hww with hww
            subst hww
            rw [he2]
            exact herase
          · exact hrec e hm2

theorem invS_removeVarsLoop :
    ∀ (fuel pid : Nat) (c : Canvas), invS c → invS (removeVarsLoop fuel pid c) := by
  intro fuel
  induction fuel with
  | zero => intro pid c h; exact h
  | succ n ih =>
    intro pid c h
    unfold removeVarsLoop
    cases hlk : lookupA c.plotData pid with
    | none => exact h
    | some r =>
      show invS (if r.variableCurves.length > 1 then
          match r.variableCurves with
          | [] => c
          | (k, _) :: _ => removeVarsLoop n pid (RemoveVariableInPlot k pid c)
        else c)
      by_cases hgt : r.variableCurves.length > 1
      · rw [if_pos hgt]
        cases hvc : r.variableCurves with
        | nil => exact h
        | cons e t =>
          obtain ⟨k0, c0⟩ := e
          exact ih pid _ (invS_removeVariableInPlot k0 pid c h)
      · rw [if_neg hgt]
        exact h

theorem invS_removePlot (pid : Nat) (c : Canvas) (h : invS c) :
    invS (RemovePlot pid c) := by
  cases hlk : lookupA c.plotData pid with
  | none =>
    rw [removePlot_absent pid c hlk]
    exact h
  | some r =>
    have hvc : r.variableCurves ≠ [] := h.2.1 (pid, r) (lookupA_some_mem _ _ _ hlk)
    have hie : r.variableCurves.isEmpty = false := by
      cases hE : r.variableCurves with
      | nil => exact absurd hE hvc
      | cons a t => rfl
    unfold RemovePlot
    simp only [hlk, hie, Bool.false_eq_true, if_false]
    have h1 : invS (removeVarsLoop r.variableCurves.length pid c) :=
      invS_removeVarsLoop _ _ _ h
    cases hlk1 : lookupA (removeVarsLoop r.variableCurves.length pid c).plotData pid with
    | none => exact h1
    | some r1 =>
      show invS (match r1.variableCurves with
          | [] => removeVarsLoop r.variableCurves.length pid c
          | (k, _) :: _ =>
            RemoveVariableInPlot k pid (removeVarsLoop r.variableCurves.length pid c))
      cases hvc1 : r1.variableCurves with
      | nil => exact h1
      | cons e t =>
        obtain ⟨k0, c0⟩ := e
        exact invS_removeVariableInPlot k0 pid _ h1

theorem invS_clearLoop :
    ∀ (fuel : Nat) (c : Canvas), invS c → invS (clearLoop fuel c) := by
  intro fuel
  induction fuel with
  | zero => intro c h; exact h
  | succ n ih =>
    intro c h
    unfold clearLoop
    cases hP : c.plotData with
    | nil => exact h
    | cons e t =>
      obtain ⟨k0, r0⟩ := e
      exact ih _ (invS_removePlot k0 c h)

theorem invS_clear (c : Canvas) (h : invS c) : invS (Clear c) :=
  invS_clearLoop _ _ h

theorem mem_eraseA_key_ne {α : Type} :
    ∀ (l : List (Nat × α)) (k : Nat) (e : Nat × α), (keysA l).Nodup →
      e ∈ eraseA l k → e.1 ≠ k := by
  intro l k e hnd he
  induction l with
  | nil => simp [eraseA] at he
  | cons e0 t ih =>
    obtain ⟨k1, v⟩ := e0
    simp only [keysA, List.map_cons, List.nodup_cons] at hnd
    by_cases hk : k1 = k
    · subst hk
      rw [eraseA_cons_self] at he
      intro hek
      exact hnd.1 (List.mem_map.mpr ⟨e, he, hek⟩)
    · simp only [eraseA, if_neg hk] at he
      rcases List.mem_cons.mp he with he1 | he2
      · rw [he1]
        exact hk
      · exact ih hnd.2 he2

theorem invS_onMoveVariable (id tg : Nat) (c : Canvas) (h : invS c) :
    invS (OnMoveVariable id tg c) := by
  obtain ⟨hiff, hrec, hs⟩ := h
  have hnd := sortedKeysB_nodup _ hs
  unfold OnMoveVariable
  rcases hfind : findMoveAux id tg c.plotData none 0 none with ⟨so, cid0, tko⟩
  simp only [hfind]
  cases so with
  | none => exact ⟨hiff, hrec, hs⟩
  | some sk =>
    cases hlk : lookupA c.plotData sk with
    | none => simp only [hlk]; exact ⟨hiff, hrec, hs⟩
    | some sr =>
      simp only [hlk]
      cases hcu : lookupA sr.plot cid0 with
      | none => simp only [hcu]; exact ⟨hiff, hrec, hs⟩
      | some cu =>
        simp only [hcu]
        have hne : c.plotData ≠ [] := lookupA_ne_nil _ _ _ hlk
        have hvis : c.emptyPlotVisible = false :=
          invS_visible_false c ⟨hiff, hrec, hs⟩ hne
        have hsA : sortedKeysB (mapAtKey c.plotData sk
            (fun r => { r with
              plot := eraseA r.plot cid0,
              variableCurves := eraseA r.variableCurves id })) = true :=
          sortedKeysB_mapAtKey _ _ _ hs
        have hlkA : lookupA (mapAtKey c.plotData sk
            (fun r => { r with
              plot := eraseA r.plot cid0,
              variableCurves := eraseA r.variableCurves id })) sk =
            some { sr with
              plot := eraseA sr.plot cid0,
              variableCurves := eraseA sr.variableCurves id } := by
          rw [lookupA_mapAtKey_self, hlk]
          rfl
        have hmemA : ∀ e ∈ mapAtKey c.plotData sk
            (fun r => { r with
              plot := eraseA r.plot cid0,
              variableCurves := eraseA r.variableCurves id }),
            (e.1 = sk ∧ e.2.variableCurves = eraseA sr.variableCurves id) ∨
            (e ∈ c.plotData ∧ e.1 ≠ sk) := by
          intro e he
          rcases mem_mapAtKey_cases _ _ _ _ he with ⟨w, hw, he2⟩ | ⟨hm2, hne2⟩
          · have hww : lookupA c.plotData sk = some w := lookupA_of_mem_nodup _ _ _ hnd hw
            rw [hlk] at hww
            injection hww with hww
            subst hww
            rw [he2]
            exact Or.inl ⟨rfl, rfl⟩
          · exact Or.inr ⟨hm2, hne2⟩
        cases tko with
        | some tk =>
          have htkmem : tk ∈ keysA c.plotData := by
            rcases findMoveAux_tg_mem c.plotData id tg none 0 none tk
              (by rw [hfind]) with h1 | h2
            · exact Option.noConfusion h1
            · exact h2
          by_cases htksk : tk = sk
          · subst htksk
            have hlkB : lookupA (mapAtKey (mapAtKey c.plotData tk
                (fun r => { r with
                  plot := eraseA r.plot cid0,
                  variableCurves := eraseA r.variableCurves id })) tk
                (fun r => { r with
                  plot := insertA r.plot cid0 cu,
                  variableCurves := insertA r.variableCurves id cid0 })) tk =
                some { plot := insertA (eraseA sr.plot cid0) cid0 cu,
                       variableCurves :=
                         insertA (eraseA sr.variableCurves id) id cid0 } := by
              rw [lookupA_mapAtKey_self, hlkA]
              rfl
            simp only [hlkB]
            have hie : (insertA (eraseA sr.variableCurves id) id cid0).isEmpty = false := by
              cases hI : insertA (eraseA sr.variableCurves id) id cid0 with
              | nil => exact absurd hI (insertA_ne_nil _ _ _)
              | cons a t => rfl
            simp only [hie, Bool.false_eq_true, if_false]
            refine ⟨?_, ?_, sortedKeysB_mapAtKey _ _ _ hsA⟩
            · constructor
              · intro hF
                have hF2 : c.emptyPlotVisible = true := hF
                rw [hvis] at hF2
                exact Bool.noConfusion hF2
              · intro hE
                exact absurd hE (mapAtKey_ne_nil _ _ _ (mapAtKey_ne_nil _ _ _ hne))
            · intro e he
              rcases mem_mapAtKey_cases _ _ _ _ he with ⟨w, hw, he2⟩ | ⟨hm2, hne2⟩
              · rw [he2]
                exact insertA_ne_nil _ _ _
              · rcases hmemA e hm2 with ⟨hk1, _⟩ | ⟨hm3, _⟩
                · exact absurd hk1 hne2
                · exact hrec e hm3
          · have hlkB : lookupA (mapAtKey (mapAtKey c.plotData sk
                (fun r => { r with
                  plot := eraseA r.plot cid0,
                  variableCurves := eraseA r.variableCurves id })) tk
                (fun r => { r with
                  plot := insertA r.plot cid0 cu,
                  variableCurves := insertA r.variableCurves id cid0 })) sk =
                some { sr with
                  plot := eraseA sr.plot cid0,
                  variableCurves := eraseA sr.variableCurves id } := by
              rw [lookupA_mapAtKey_ne _ _ _ _ (fun hE => htksk hE.symm), hlkA]
            simp only [hlkB]
            have hsB : sortedKeysB (mapAtKey (mapAtKey c.plotData sk
                (fun r => { r with
                  plot := eraseA r.plot cid0,
                  variableCurves := eraseA r.variableCurves id })) tk
                (fun r => { r with
                  plot := insertA r.plot cid0 cu,
                  variableCurves := insertA r.variableCurves id cid0 })) = true :=
              sortedKeysB_mapAtKey _ _ _ hsA
            have hmemB : ∀ e ∈ mapAtKey (mapAtKey c.plotData sk
                (fun r => { r with
                  plot := eraseA r.plot cid0,
                  variableCurves := eraseA r.variableCurves id })) tk
                (fun r => { r with
                  plot := insertA r.plot cid0 cu,
                  variableCurves := insertA r.variableCurves id cid0 }),
                e.1 ≠ sk → e.2.variableCurves ≠ [] := by
              intro e he hesk
              rcases mem_mapAtKey_cases _ _ _ _ he with ⟨w, _, he2⟩ | ⟨hm2, _⟩
              · rw [he2]
                exact insertA_ne_nil _ _ _
              · rcases hmemA e hm2 with ⟨hk1, _⟩ | ⟨hm3, _⟩
                · exact absurd hk1 hesk
                · exact hrec e hm3
            have hlkBtk : ∃ rt : PlotData, lookupA (mapAtKey (mapAtKey c.plotData sk
                (fun r => { r with
                  plot := eraseA r.plot cid0,
                  variableCurves := eraseA r.variableCurves id })) tk
                (fun r => { r with
                  plot := insertA r.plot cid0 cu,
                  variableCurves := insertA r.variableCurves id cid0 })) tk =
                some { rt with
                  plot := insertA rt.plot cid0 cu,
                  variableCurves := insertA rt.variableCurves id cid0 } := by
              have h1 : (lookupA c.plotData tk).isSome :=
                mem_keysA_lookup_isSome _ _ htkmem
              cases h2 : lookupA c.plotData tk with
              | none => rw [h2] at h1; exact Bool.noConfusion h1
              | some rt =>
                refine ⟨rt, ?_⟩
                rw [lookupA_mapAtKey_self, lookupA_mapAtKey_ne _ _ _ _ htksk, h2]
                rfl
            by_cases hge : eraseA sr.variableCurves id = []
            · have hie : (eraseA sr.variableCurves id).isEmpty = true := by
                rw [hge]; rfl
              simp only [hie, if_true]
              obtain ⟨rt, hrt⟩ := hlkBtk
              have hndB : (keysA (mapAtKey (mapAtKey c.plotData sk
                  (fun r => { r with
                    plot := eraseA r.plot cid0,
                    variableCurves := eraseA r.variableCurves id })) tk
                  (fun r => { r with
                    plot := insertA r.plot cid0 cu,
                    variableCurves := insertA r.variableCurves id cid0 }))).Nodup :=
                sortedKeysB_nodup _ hsB
              have hlkE : lookupA (eraseA (mapAtKey (mapAtKey c.plotData sk
                  (fun r => { r with
                    plot := eraseA r.plot cid0,
                    variableCurves := eraseA r.variableCurves id })) tk
                  (fun r => { r with
                    plot := insertA r.plot cid0 cu,
                    variableCurves := insertA r.variableCurves id cid0 })) sk) tk =
                  some { rt with
                    plot := insertA rt.plot cid0 cu,
                    variableCurves := insertA rt.variableCurves id cid0 } := by
                rw [lookupA_eraseA_ne _ _ _ htksk, hrt]
              refine ⟨?_, ?_, sortedKeysB_eraseA _ _ hsB⟩
              · constructor
                · intro hF
                  have hF2 : c.emptyPlotVisible = true := hF
                  rw [hvis] at hF2
                  exact Bool.noConfusion hF2
                · intro hE
                  exact absurd hE (lookupA_ne_nil _ _ _ hlkE)
              · intro e he
                have hesk : e.1 ≠ sk := mem_eraseA_key_ne _ _ _ hndB he
                exact hmemB e (mem_of_mem_eraseA _ _ _ he) hesk
            · have hie : (eraseA sr.variableCurves id).isEmpty = false := by
                cases hE : eraseA sr.variableCurves id with
                | nil => exact absurd hE hge
                | cons a t => rfl
              simp only [hie, Bool.false_eq_true, if_false]
              refine ⟨?_, ?_, hsB⟩
              · constructor
                · intro hF
                  have hF2 : c.emptyPlotVisible = true := hF
                  rw [hvis] at hF2
                  exact Bool.noConfusion hF2
                · intro hE
                  exact absurd hE (mapAtKey_ne_nil _ _ _ (mapAtKey_ne_nil _ _ _ hne))
              · intro e he
                rcases mem_mapAtKey_cases _ _ _ _ he with ⟨w, _, he2⟩ | ⟨hm2, _⟩
                · rw [he2]
                  exact insertA_ne_nil _ _ _
                · rcases hmemA e hm2 with ⟨_, hk2⟩ | ⟨hm3, _⟩
                  · rw [hk2]
                    exact hge
                  · exact hrec e hm3
        | none =>
          simp only [AddPlot]
          have hsC : sortedKeysB (insertA (mapAtKey c.plotData sk
              (fun r => { r with
                plot := eraseA r.plot cid0,
                variableCurves := eraseA r.variableCurves id })) c.globalPlotId
              { plot := [], variableCurves := [] }) = true :=
            sortedKeysB_insertA _ _ _ hsA
          have hsD : sortedKeysB (mapAtKey (insertA (mapAtKey c.plotData sk
              (fun r => { r with
                plot := eraseA r.plot cid0,
                variableCurves := eraseA r.variableCurves id })) c.globalPlotId
              { plot := [], variableCurves := [] }) c.globalPlotId
              (fun r => { r with
                plot := insertA r.plot cid0 cu,
                variableCurves := insertA r.variableCurves id cid0 })) = true :=
            sortedKeysB_mapAtKey _ _ _ hsC
          have hDne : mapAtKey (insertA (mapAtKey c.plotData sk
              (fun r => { r with
                plot := eraseA r.plot cid0,
                variableCurves := eraseA r.variableCurves id })) c.globalPlotId
              { plot := [], variableCurves := [] }) c.globalPlotId
              (fun r => { r with
                plot := insertA r.plot cid0 cu,
                variableCurves := insertA r.variableCurves id cid0 }) ≠ [] :=
            mapAtKey_ne_nil _ _ _ (insertA_ne_nil _ _ _)
          have hDe : (mapAtKey (insertA (mapAtKey c.plotData sk
              (fun r => { r with
                plot := eraseA r.plot cid0,
                variableCurves := eraseA r.variableCurves id })) c.globalPlotId
              { plot := [], variableCurves := [] }) c.globalPlotId
              (fun r => { r with
                plot := insertA r.plot cid0 cu,
                variableCurves := insertA r.variableCurves id cid0 })).isEmpty = false := by
            cases hE : mapAtKey (insertA (mapAtKey c.plotData sk
                (fun r => { r with
                  plot := eraseA r.plot cid0,
                  variableCurves := eraseA r.variableCurves id })) c.globalPlotId
                { plot := [], variableCurves := [] }) c.globalPlotId
                (fun r => { r with
                  plot := insertA r.plot cid0 cu,
                  variableCurves := insertA r.variableCurves id cid0 }) with
            | nil => exact absurd hE hDne
            | cons a t => rfl
          simp only [hDe, Bool.false_eq_true, if_false]
          have hlkDgp : lookupA (mapAtKey (insertA (mapAtKey c.plotData sk
              (fun r => { r with
                plot := eraseA r.plot cid0,
                variableCurves := eraseA r.variableCurves id })) c.globalPlotId
              { plot := [], variableCurves := [] }) c.globalPlotId
              (fun r => { r with
                plot := insertA r.plot cid0 cu,
                variableCurves := insertA r.variableCurves id cid0 })) c.globalPlotId =
              some { plot := insertA [] cid0 cu,
                     variableCurves := insertA [] id cid0 } := by
            rw [lookupA_mapAtKey_self, lookupA_insertA_self]
            rfl
          have hmemD : ∀ e ∈ mapAtKey (insertA (mapAtKey c.plotData sk
              (fun r => { r with
                plot := eraseA r.plot cid0,
                variableCurves := eraseA r.variableCurves id })) c.globalPlotId
              { plot := [], variableCurves := [] }) c.globalPlotId
              (fun r => { r with
                plot := insertA r.plot cid0 cu,
                variableCurves := insertA r.variableCurves id cid0 }),
              (e.1 = sk ∧ e.1 ≠ c.globalPlotId ∧
                e.2.variableCurves = eraseA sr.variableCurves id) ∨
              e.2.variableCurves ≠ [] := by
            intro e he
            rcases mem_mapAtKey_cases _ _ _ _ he with ⟨w, _, he2⟩ | ⟨hm2, hne2⟩
            · rw [he2]
              exact Or.inr (insertA_ne_nil _ _ _)
            · rcases mem_insertA_cases _ _ _ _ hm2 with he3 | he4
              · exact absurd (by rw [he3]) hne2
              · rcases hmemA e he4 with ⟨hk1, hk2⟩ | ⟨hm5, _⟩
                · exact Or.inl ⟨hk1, hne2, hk2⟩
                · exact Or.inr (hrec e hm5)
          by_cases hskgp : sk = c.globalPlotId
          · subst hskgp
            simp only [hlkDgp]
            have hie : (insertA ([] : List (Nat × Nat)) id cid0).isEmpty = false := rfl
            simp only [hie, Bool.false_eq_true, if_false]
            refine ⟨⟨fun hF => Bool.noConfusion hF, fun hE => absurd hE hDne⟩, ?_, hsD⟩
            intro e he
            rcases hmemD e he with ⟨hk1, hkgp, _⟩ | h2
            · exact absurd hk1 hkgp
            · exact h2
          · have hlkD : lookupA (mapAtKey (insertA (mapAtKey c.plotData sk
                (fun r => { r with
                  plot := eraseA r.plot cid0,
                  variableCurves := eraseA r.variableCurves id })) c.globalPlotId
                { plot := [], variableCurves := [] }) c.globalPlotId
                (fun r => { r with
                  plot := insertA r.plot cid0 cu,
                  variableCurves := insertA r.variableCurves id cid0 })) sk =
                some { sr with
                  plot := eraseA sr.plot cid0,
                  variableCurves := eraseA sr.variableCurves id } := by
              rw [lookupA_mapAtKey_ne _ _ _ _ hskgp,
                lookupA_insertA_ne _ _ _ _ hskgp, hlkA]
            simp only [hlkD]
            by_cases hge : eraseA sr.variableCurves id = []
            · have hie : (eraseA sr.variableCurves id).isEmpty = true := by
                rw [hge]; rfl
              simp only [hie, if_true]
              have hndD := sortedKeysB_nodup _ hsD
              have hlkE : lookupA (eraseA (mapAtKey (insertA (mapAtKey c.plotData sk
                  (fun r => { r with
                    plot := eraseA r.plot cid0,
                    variableCurves := eraseA r.variableCurves id })) c.globalPlotId
                  { plot := [], variableCurves := [] }) c.globalPlotId
                  (fun r => { r with
                    plot := insertA r.plot cid0 cu,
                    variableCurves := insertA r.variableCurves id cid0 })) sk)
                  c.globalPlotId =
                  some { plot := insertA [] cid0 cu,
                         variableCurves := insertA [] id cid0 } := by
                rw [lookupA_eraseA_ne _ _ _ (fun hE => hskgp hE.symm), hlkDgp]
              refine ⟨⟨fun hF => Bool.noConfusion hF,
                fun hE => absurd hE (lookupA_ne_nil _ _ _ hlkE)⟩, ?_,
                sortedKeysB_eraseA _ _ hsD⟩
              intro e he
              have hesk : e.1 ≠ sk := mem_eraseA_key_ne _ _ _ hndD he
              rcases hmemD e (mem_of_mem_eraseA _ _ _ he) with ⟨hk1, _, _⟩ | h2
              · exact absurd hk1 hesk
              · exact h2
            · have hie : (eraseA sr.variableCurves id).isEmpty = false := by
                cases hE : eraseA sr.variableCurves id with
                | nil => exact absurd hE hge
                | cons a t => rfl
              simp only [hie, Bool.false_eq_true, if_false]
              refine ⟨⟨fun hF => Bool.noConfusion hF, fun hE => absurd hE hDne⟩, ?_, hsD⟩
              intro e he
              rcases hmemD e he with ⟨_, _, hk2⟩ | h2
              · rw [hk2]
                exact hge
              · exact h2

theorem invS_of_reachableRestricted (c : Canvas) (h : ReachableRestricted c) :
    invS c := by
  induction h with
  | init =>
    exact ⟨⟨fun _ => rfl, fun _ => rfl⟩, fun e he => absurd he (List.not_mem_nil e), rfl⟩
  | addVariable id vn pid c hc ih => exact invS_addVariable id vn pid c ih
  | addVariableByName vn pid c hc ih => exact invS_addVariableByName vn pid c ih
  | removeVariable id c hc ih => exact invS_removeVariable id c ih
  | removeVariableInPlot id pid c hc ih => exact invS_removeVariableInPlot id pid c ih
  | removePlot pid c hc ih => exact invS_removePlot pid c ih
  | onMoveVariable id tid c hc ih => exact invS_onMoveVariable id tid c ih
  | clear c hc ih => exact invS_clear c ih

/-- C1: The placeholder invariant holds on the restricted operation set:
at every state reachable from the initial canvas by any sequence of
AddVariable, AddVariable-by-name, both RemoveVariable overloads,
RemovePlot, OnMoveVariable and Clear — that is, every exposed operation
of the claim except a bare `AddPlot` — the empty-plot placeholder is
visible exactly when the map of live plot records is empty.  A bare
`AddPlot` breaks the equivalence (it inserts a live record while
leaving the placeholder visible), so the claim as stated over all six
operations fails; this is the repaired invariant. -/
theorem placeholder_iff_empty_of_reachable (c : Canvas)
    (h : ReachableRestricted c) :
    c.emptyPlotVisible = true ↔ c.plotData = [] :=
  (invS_of_reachableRestricted c h).1

/-- Witness for C1: the state reached by adding one variable to a fresh
plot is reachable by the restricted operations, and there the placeholder
is hidden and the record map is nonempty, as the invariant demands. -/
theorem placeholder_iff_empty_witness :
    ReachableRestricted (AddVariableByName "a" EMPTY_PLOT initCanvas).2 ∧
    ((AddVariableByName "a" EMPTY_PLOT initCanvas).2.emptyPlotVisible = true ↔
      (AddVariableByName "a" EMPTY_PLOT initCanvas).2.plotData = []) :=
  ⟨ReachableRestricted.addVariableByName _ _ _ ReachableRestricted.init,
   placeholder_iff_empty_of_reachable _
     (ReachableRestricted.addVariableByName _ _ _ ReachableRestricted.init)⟩

end PlotProof

